import Mathlib

/-!
# gosql SQL builder: shallow embedding of `sql_builder.go`

The Go file `sql_builder.go` assembles SELECT / COUNT / INSERT / UPDATE / DELETE
statements from a mutable `SQLBuilder`.  The embedding below turns every method
with a pointer receiver into a function returning the new builder (and, for the
terminal operations, the rendered text paired with the new builder).

Modelling conventions:

* Go `string` is Lean `String`; `fmt.Sprintf` with `%s` verbs only is rendered
  as concatenation in the order of the verbs.
* `[]interface{}` is `Slice`, an optional list: `none` is the `nil` slice.  The
  *argument sequence* of a builder is `s.args.toList`.
* `interface{}` is `Value`; the `*expr` dynamic type is the constructor `raw`.
* `map[string]interface{}` is `ParamMap`, a duplicate-free association list
  whose list order plays the role of Go's unspecified iteration order.
* `Dialect` is an interface in Go; the only state an implementation may carry
  is a placeholder counter, threaded explicitly.
* `fmt.Println(s.dialect.GetName())` in `updateString` writes to standard
  output only and is not part of the builder state; it is omitted.
-/

namespace Gosql

/-! ## Values, slices and parameter maps -/

/-- Dynamic values of Go type `interface{}`.  `raw e a` is a `*expr` whose
fields are `expr = e` (literal SQL text) and `args = a` (its own arguments). -/
inductive Value where
  | null
  | int (n : Int)
  | str (s : String)
  | raw (expr : String) (args : List Value)

mutual
/-- Decidable equality on `Value` (written by hand: the type is nested). -/
def Value.decEq : (a b : Value) → Decidable (a = b)
  | .null, .null => isTrue rfl
  | .int a, .int b =>
    if h : a = b then isTrue (by rw [h]) else isFalse (by intro h2; cases h2; exact h rfl)
  | .str a, .str b =>
    if h : a = b then isTrue (by rw [h]) else isFalse (by intro h2; cases h2; exact h rfl)
  | .raw e a, .raw f b =>
    if h : e = f then
      match Value.decEqList a b with
      | isTrue h2 => isTrue (by rw [h, h2])
      | isFalse h2 => isFalse (by intro h3; cases h3; exact h2 rfl)
    else isFalse (by intro h2; cases h2; exact h rfl)
  | .null, .int _ => isFalse (by intro h; cases h)
  | .null, .str _ => isFalse (by intro h; cases h)
  | .null, .raw _ _ => isFalse (by intro h; cases h)
  | .int _, .null => isFalse (by intro h; cases h)
  | .int _, .str _ => isFalse (by intro h; cases h)
  | .int _, .raw _ _ => isFalse (by intro h; cases h)
  | .str _, .null => isFalse (by intro h; cases h)
  | .str _, .int _ => isFalse (by intro h; cases h)
  | .str _, .raw _ _ => isFalse (by intro h; cases h)
  | .raw _ _, .null => isFalse (by intro h; cases h)
  | .raw _ _, .int _ => isFalse (by intro h; cases h)
  | .raw _ _, .str _ => isFalse (by intro h; cases h)
/-- Decidable equality on lists of `Value`. -/
def Value.decEqList : (a b : List Value) → Decidable (a = b)
  | [], [] => isTrue rfl
  | [], _ :: _ => isFalse (by intro h; cases h)
  | _ :: _, [] => isFalse (by intro h; cases h)
  | x :: xs, y :: ys =>
    match Value.decEq x y with
    | isTrue h1 =>
      match Value.decEqList xs ys with
      | isTrue h2 => isTrue (by rw [h1, h2])
      | isFalse h2 => isFalse (by intro h3; cases h3; exact h2 rfl)
    | isFalse h1 => isFalse (by intro h3; cases h3; exact h1 rfl)
end

instance : DecidableEq Value := Value.decEq

/-- A Go slice `[]interface{}`; `none` is the `nil` slice, `some []` an empty
non-nil slice. -/
abbrev Slice := Option (List Value)

/-- The elements of a slice, in order (`nil` has none). -/
def Slice.toList : Slice → List Value
  | none => []
  | some l => l

/-- Go `append(s, xs...)`: with nothing to add the slice is returned as is
(a `nil` slice stays `nil`), otherwise the result holds the old elements
followed by the new ones. -/
def append (s : Slice) (xs : List Value) : Slice :=
  match xs with
  | [] => s
  | _ :: _ => some (s.toList ++ xs)

/-- A Go `map[string]interface{}`: a key occurs at most once.  The order of
`entries` stands for the iteration order, which Go leaves unspecified. -/
structure ParamMap where
  entries : List (String × Value)
  nodup : (entries.map Prod.fst).Nodup

/-- Go `params[k]`: the value stored under `k`, or the zero value `nil`. -/
def ParamMap.get (params : ParamMap) (k : String) : Value :=
  (params.entries.lookup k).getD Value.null

/-- Lexicographic order on strings, character by character; on Go strings this
is the order of `<=` (byte order of UTF-8 agrees with code point order). -/
def lexLE : List Char → List Char → Bool
  | [], _ => true
  | _ :: _, [] => false
  | a :: as, b :: bs => if a < b then true else if b < a then false else lexLE as bs

/-- The order used to sort column names. -/
def keyLE (a b : String) : Prop := lexLE a.data b.data = true

instance : DecidableRel keyLE := fun a b => inferInstanceAs (Decidable (lexLE a.data b.data = true))

/-- Modelled from the spec: `sortedParamKeys` is called by `insertString` and
`updateString` but its body is not part of the source file; the spec says the
builder "orders keys lexicographically" (lexicographic by column name). -/
def sortedParamKeys (params : ParamMap) : List String :=
  (params.entries.map Prod.fst).insertionSort keyLE

/-! ## Strings -/

/-- Go `strings.TrimRight(s, cutset)`: `s` without its trailing characters that
occur in `cutset`. -/
def TrimRight (s : String) (cutset : String) : String :=
  String.mk (s.data.rdropWhile (fun c => decide (c ∈ cutset.data)))

/-- Go `strings.Join(elems, sep)`. -/
def Join : List String → String → String
  | [], _ => ""
  | [a], _ => a
  | a :: b :: rest, sep => a ++ sep ++ Join (b :: rest) sep

/-! ## Dialect -/

/-- The `Dialect` interface (`Quote`, `Placeholder`, `GetName`).  Its
declaration is not part of the source file; only the three methods used by the
builder are modelled.  `next` maps the current placeholder counter to the
token returned by `Placeholder()` and the counter afterwards, so both a
stateless `?` dialect and a numbering `$N` dialect are instances. -/
structure Dialect where
  name : String
  quote : String → String
  next : Nat → String × Nat
  counter : Nat

/-- The method `Quote(name)`. -/
def Dialect.Quote (d : Dialect) (k : String) : String := d.quote k

/-- The method `GetName()`. -/
def Dialect.GetName (d : Dialect) : String := d.name

/-- The method `Placeholder()`: the token and the dialect afterwards. -/
def Dialect.Placeholder (d : Dialect) : String × Dialect :=
  ((d.next d.counter).1, { d with counter := (d.next d.counter).2 })

/-! ## The builder -/

/-- The struct `SQLBuilder`. -/
structure SQLBuilder where
  dialect : Dialect
  fields : String
  table : String
  forceIndex : String
  «where» : String
  order : String
  limit : String
  offset : String
  hint : String
  args : Slice

/-- The method `limitFormat`. -/
def SQLBuilder.limitFormat (s : SQLBuilder) : String :=
  if s.limit ≠ "" then "LIMIT " ++ s.limit else ""

/-- The method `offsetFormat`. -/
def SQLBuilder.offsetFormat (s : SQLBuilder) : String :=
  if s.offset ≠ "" then "OFFSET " ++ s.offset else ""

/-- The method `orderFormat`. -/
def SQLBuilder.orderFormat (s : SQLBuilder) : String :=
  if s.order ≠ "" then "ORDER BY " ++ s.order else ""

/-- The local variable `table` of `queryString`: the quoted table name, with
the force-index suffix when `forceIndex` is set. -/
def SQLBuilder.queryTable (s : SQLBuilder) : String :=
  if s.forceIndex ≠ "" then
    s.dialect.Quote s.table ++ (" force index(" ++ s.forceIndex ++ ")")
  else s.dialect.Quote s.table

/-- The method `queryString`: the rendered text and the builder afterwards
(the method stores the default field list `*` in the receiver). -/
def SQLBuilder.queryString (s : SQLBuilder) : String × SQLBuilder :=
  let s := if s.fields = "" then { s with fields := "*" } else s
  let table := s.queryTable
  let query := s.hint ++ "SELECT " ++ s.fields ++ " FROM " ++ table ++ " " ++ s.«where» ++ " "
    ++ s.orderFormat ++ " " ++ s.limitFormat ++ " " ++ s.offsetFormat
  let query := TrimRight query " "
  let query := query ++ ";"
  (query, s)

/-- The method `countString`. -/
def SQLBuilder.countString (s : SQLBuilder) : String × SQLBuilder :=
  let query := s.hint ++ "SELECT count(*) FROM " ++ s.dialect.Quote s.table ++ " " ++ s.«where»
  let query := TrimRight query " "
  let query := query ++ ";"
  (query, s)

/-- The loop state of `insertString`: `cols`, `vals` and the receiver. -/
structure InsertLoop where
  cols : List String
  vals : List String
  s : SQLBuilder

/-- One iteration of the loop of `insertString`, for key `k`. -/
def insertStep (params : ParamMap) (st : InsertLoop) (k : String) : InsertLoop :=
  let cols := st.cols ++ [st.s.dialect.Quote k]
  let p := st.s.dialect.Placeholder
  let vals := st.vals ++ [p.1]
  { cols := cols, vals := vals,
    s := { st.s with dialect := p.2, args := append st.s.args [params.get k] } }

/-- The method `insertString`. -/
def SQLBuilder.insertString (s : SQLBuilder) (params : ParamMap) : String × SQLBuilder :=
  let st := (sortedParamKeys params).foldl (insertStep params) { cols := [], vals := [], s := s }
  ("INSERT INTO " ++ st.s.dialect.Quote st.s.table ++ " (" ++ Join st.cols "," ++ ") VALUES("
      ++ Join st.vals "," ++ ");", st.s)

/-- The loop state of `updateString`: `updateFields`, the local `args` and the
dialect (whose placeholder counter the loop advances). -/
structure UpdateLoop where
  updateFields : List String
  args : Slice
  dialect : Dialect

/-- One iteration of the loop of `updateString`, for key `k`: the type
assertion `params[k].(*expr)` succeeds exactly on `Value.raw`. -/
def updateStep (params : ParamMap) (st : UpdateLoop) (k : String) : UpdateLoop :=
  match params.get k with
  | Value.raw e eargs =>
    { updateFields := st.updateFields ++ [st.dialect.Quote k ++ "=" ++ e],
      args := append st.args eargs,
      dialect := st.dialect }
  | v =>
    let p := st.dialect.Placeholder
    { updateFields := st.updateFields ++ [st.dialect.Quote k ++ "=" ++ p.1],
      args := append st.args [v],
      dialect := p.2 }

/-- The method `updateString`. -/
def SQLBuilder.updateString (s : SQLBuilder) (params : ParamMap) : String × SQLBuilder :=
  let st := (sortedParamKeys params).foldl (updateStep params)
    { updateFields := [], args := some [], dialect := s.dialect }
  let s := { s with dialect := st.dialect }
  let s :=
    if s.dialect.GetName = "postgres" then
      { s with args := append s.args st.args.toList }
    else
      { s with args := append st.args s.args.toList }
  let query := "UPDATE " ++ s.dialect.Quote s.table ++ " SET " ++ Join st.updateFields "," ++ " "
    ++ s.«where»
  let query := TrimRight query " "
  let query := query ++ ";"
  (query, s)

/-- The method `deleteString`. -/
def SQLBuilder.deleteString (s : SQLBuilder) : String × SQLBuilder :=
  let query := "DELETE FROM " ++ s.dialect.Quote s.table ++ " " ++ s.«where»
  let query := TrimRight query " "
  let query := query ++ ";"
  (query, s)

/-- The method `Where(str, args...)`; `args` is the variadic slice, `nil` when
the call passes no arguments. -/
def SQLBuilder.Where (s : SQLBuilder) (str : String) (args : Slice) : SQLBuilder :=
  let s :=
    if s.«where» ≠ "" then { s with «where» := s.«where» ++ " AND (" ++ str ++ ")" }
    else { s with «where» := "WHERE (" ++ str ++ ")" }
  match args with
  | none => s
  | some a =>
    match s.args with
    | none => { s with args := some a }
    | some _ => { s with args := append s.args a }

/-! ## Concrete dialects and builders used in the examples -/

/-- A generic dialect: double-quoted identifiers, the fixed placeholder `?`. -/
def genericDialect : Dialect :=
  { name := "mysql", quote := fun k => "\"" ++ k ++ "\"", next := fun n => ("?", n), counter := 0 }

/-- A dialect named `postgres` with double-quoted identifiers and numbered
placeholders `$1`, `$2`, ... -/
def postgresDialect : Dialect :=
  { name := "postgres", quote := fun k => "\"" ++ k ++ "\"",
    next := fun n => ("$" ++ String.mk (Nat.toDigits 10 (n + 1)), n + 1), counter := 0 }

/-- A freshly created builder for `table` on dialect `d`. -/
def newBuilder (d : Dialect) (table : String) : SQLBuilder :=
  { dialect := d, fields := "", table := table, forceIndex := "", «where» := "", order := "",
    limit := "", offset := "", hint := "", args := none }

/-- The parameter map `{"name": "Bob"}`. -/
def paramsNameBob : ParamMap :=
  { entries := [("name", Value.str "Bob")], nodup := by decide }

/-- A builder for table `users` after the call `Where("id = ?", 5)`. -/
def builderWhereId (d : Dialect) : SQLBuilder :=
  (newBuilder d "users").Where "id = ?" (some [Value.int 5])

/-! ## Specification-level descriptions -/

/-- The arguments one value of the parameter map contributes to the SET clause:
the own arguments of a Raw Expression, the value itself otherwise. -/
def setArgsOf : Value → List Value
  | Value.raw _ eargs => eargs
  | v => [v]

/-- The set-arguments of an update: the contributions of the keys, collected in
lexicographic key order. -/
def setArgs (params : ParamMap) : List Value :=
  (sortedParamKeys params).flatMap (fun k => setArgsOf (params.get k))

/-- A sequence of calls `Where(f1, a1...), ..., Where(fn, an...)`, applied in
call order; each call is a pair of the fragment and the variadic slice. -/
def whereCalls (s : SQLBuilder) (calls : List (String × Slice)) : SQLBuilder :=
  calls.foldl (fun b c => b.Where c.1 c.2) s

/-- The text `sep ++ a1 ++ sep ++ a2 ++ ...`: what `Join` adds after its first
element. -/
def joinTail : List String → String → String
  | [], _ => ""
  | a :: rest, sep => sep ++ a ++ joinTail rest sep

/-- The tokens returned by `n` successive calls of `Placeholder()`, starting
from dialect state `d`. -/
def placeholders (d : Dialect) : Nat → List String
  | 0 => []
  | n + 1 => d.Placeholder.1 :: placeholders d.Placeholder.2 n

/-- The parameter map `{"name": "Bob", "age": 30}`, iterated name first. -/
def paramsNameAge : ParamMap :=
  { entries := [("name", Value.str "Bob"), ("age", Value.int 30)], nodup := by decide }

/-- The same map as `paramsNameAge`, iterated age first. -/
def paramsAgeName : ParamMap :=
  { entries := [("age", Value.int 30), ("name", Value.str "Bob")], nodup := by decide }

/-- The number of placeholder tokens `?` in a text. -/
def countQ (s : String) : Nat := s.data.count '?'

/-- A value of an update map is balanced when, being a Raw Expression, its text
holds as many `?` as it has arguments (a scalar is always balanced). -/
def rawBalanced : Value → Bool
  | Value.raw e eargs => countQ e == eargs.length
  | _ => true

/-- A builder for table `users` after the call `Where("id = ?")` without
arguments. -/
def builderWhereNoArgs (d : Dialect) : SQLBuilder :=
  (newBuilder d "users").Where "id = ?" none

/-- The text ends with `;` and the character immediately before that final `;`
is present and is not a space. -/
def endsWithoutTrailingSpace (text : String) : Prop :=
  ∃ pre c, text.data = pre ++ [c, ';'] ∧ c ≠ ' '

/-- The builder of the select example: table `users`, `Where("age > ?", 21)`,
order `name`, limit `10`. -/
def builderSelectExample : SQLBuilder :=
  { (newBuilder genericDialect "users").Where "age > ?" (some [Value.int 21]) with
    order := "name", limit := "10" }

/-- The SET list of an update as the spec words it: for the keys in the given
order, `Quote(k)=e.expr` for a Raw Expression `e`, for which `Placeholder()` is
not called (the dialect is passed on as it is), and `Quote(k)=Placeholder()`
otherwise. -/
def setList (params : ParamMap) (d : Dialect) : List String → List String
  | [] => []
  | k :: ks =>
    match params.get k with
    | Value.raw e _ => (d.Quote k ++ "=" ++ e) :: setList params d ks
    | _ => (d.Quote k ++ "=" ++ d.Placeholder.1) :: setList params d.Placeholder.2 ks

/-- The dialect after rendering the SET list: `Placeholder()` has been called
once for every key whose value is not a Raw Expression, and not otherwise. -/
def setDialect (params : ParamMap) (d : Dialect) : List String → Dialect
  | [] => d
  | k :: ks =>
    match params.get k with
    | Value.raw _ _ => setDialect params d ks
    | _ => setDialect params d.Placeholder.2 ks

/-- The parameter map `{"name": "Bob", "cnt": Expr("cnt + ?", 1)}`. -/
def paramsRaw : ParamMap :=
  { entries := [("name", Value.str "Bob"), ("cnt", Value.raw "cnt + ?" [Value.int 1])],
    nodup := by decide }

/-- A dialect that leaves identifiers as they are, with the placeholder `?`. -/
def plainDialect : Dialect :=
  { name := "plain", quote := fun k => k, next := fun n => ("?", n), counter := 0 }

/-- A builder for table `orders` after `Where("status = ?", "cancelled")`. -/
def builderDeleteExample : SQLBuilder :=
  (newBuilder genericDialect "orders").Where "status = ?" (some [Value.str "cancelled"])

/-- The text ends with `;`. -/
def endsWithSemicolon (text : String) : Prop := ∃ pre, text.data = pre ++ [';']

/-- The text ends with `;` and not with `;;`: the character before the final
`;` is present and is not `;`. -/
def endsWithSingleSemicolon (text : String) : Prop :=
  ∃ pre c, text.data = pre ++ [c, ';'] ∧ c ≠ ';'

/-- No `;` occurs in the text. -/
def noSemi (s : String) : Prop := ';' ∉ s.data

instance (s : String) : Decidable (noSemi s) := inferInstanceAs (Decidable (';' ∉ s.data))

/-- A value of an update map holds no `;` in the text it renders: the text of
a Raw Expression (a scalar renders a placeholder, not text of its own). -/
def rawNoSemi : Value → Bool
  | Value.raw e _ => decide (noSemi e)
  | _ => true

/-- A builder for table `users` whose order string is `name;`. -/
def builderOrderSemi : SQLBuilder :=
  { newBuilder genericDialect "users" with order := "name;" }

/-- The nil (empty) parameter map. -/
def nilParams : ParamMap := { entries := [], nodup := List.nodup_nil }

/-- The same builder on a dialect that differs from its own in name only
(same `Quote`, same `Placeholder`). -/
def withDialectName (s : SQLBuilder) (n : String) : SQLBuilder :=
  { s with dialect := { s.dialect with name := n } }

/-- Whether two consecutive spaces occur in a character sequence. -/
def hasDoubleSpace : List Char → Bool
  | a :: b :: rest => (a == ' ' && b == ' ') || hasDoubleSpace (b :: rest)
  | _ => false

/-- The text contains no two consecutive spaces. -/
def noDoubleSpace (s : String) : Prop := hasDoubleSpace s.data = false

instance (s : String) : Decidable (noDoubleSpace s) :=
  inferInstanceAs (Decidable (hasDoubleSpace s.data = false))

/-- The text contains no two consecutive spaces and neither begins nor ends
with a space (the empty text qualifies). -/
def tight (s : String) : Prop :=
  hasDoubleSpace s.data = false ∧ s.data.head? ≠ some ' ' ∧ s.data.getLast? ≠ some ' '

instance (s : String) : Decidable (tight s) :=
  inferInstanceAs (Decidable (hasDoubleSpace s.data = false ∧ s.data.head? ≠ some ' '
    ∧ s.data.getLast? ≠ some ' '))

/-- A non-empty character sequence without two consecutive spaces that neither
begins nor ends with a space. -/
def solid (l : List Char) : Prop :=
  hasDoubleSpace l = false ∧ l ≠ [] ∧ l.head? ≠ some ' ' ∧ l.getLast? ≠ some ' '

/-- A builder for table `users` with order `name` and no predicate. -/
def builderOrderOnly : SQLBuilder :=
  { newBuilder genericDialect "users" with order := "name" }

/-! ## Basic facts about slices and the update loop -/

theorem toList_some (l : List Value) : Slice.toList (some l) = l := rfl

theorem toList_none : Slice.toList none = [] := rfl

theorem toList_append (s : Slice) (xs : List Value) :
    (append s xs).toList = s.toList ++ xs := by
  cases xs <;> simp [append, Slice.toList]

theorem updateStep_args (params : ParamMap) (st : UpdateLoop) (k : String) :
    (updateStep params st k).args.toList = st.args.toList ++ setArgsOf (params.get k) := by
  unfold updateStep
  split
  · next e eargs h => simp [toList_append, h, setArgsOf]
  · next v h =>
    simp only [toList_append]
    cases hv : params.get k <;> simp_all [setArgsOf]

theorem updateStep_name (params : ParamMap) (st : UpdateLoop) (k : String) :
    (updateStep params st k).dialect.name = st.dialect.name := by
  unfold updateStep
  split <;> simp [Dialect.Placeholder]

theorem updateLoop_args (params : ParamMap) (keys : List String) (st : UpdateLoop) :
    (keys.foldl (updateStep params) st).args.toList
      = st.args.toList ++ keys.flatMap (fun k => setArgsOf (params.get k)) := by
  induction keys generalizing st with
  | nil => simp
  | cons k ks ih => simp [ih, updateStep_args, List.append_assoc]

theorem updateLoop_name (params : ParamMap) (keys : List String) (st : UpdateLoop) :
    (keys.foldl (updateStep params) st).dialect.name = st.dialect.name := by
  induction keys generalizing st with
  | nil => simp
  | cons k ks ih => simp [ih, updateStep_name]

/-! ## C1, C2: argument order of `updateString` -/

/-- C1 (as amended): on a dialect whose `GetName()` is `postgres`, `updateString`
leaves the pre-existing WHERE arguments first and appends the set-arguments (in
lexicographic key order) after them. -/
theorem updateString_args_postgres (s : SQLBuilder) (params : ParamMap)
    (h : s.dialect.GetName = "postgres") :
    (s.updateString params).2.args.toList = s.args.toList ++ setArgs params := by
  have hn := updateLoop_name params (sortedParamKeys params)
    { updateFields := [], args := some [], dialect := s.dialect }
  simp only [Dialect.GetName] at h
  simp only [SQLBuilder.updateString, Dialect.GetName, hn, h, if_true, toList_append,
    updateLoop_args, setArgs]
  simp [Slice.toList]

/-- Witness for C1: the postgres builder after `Where("id = ?", 5)` updated with
`{"name": "Bob"}`. -/
theorem updateString_args_postgres_witness :
    (builderWhereId postgresDialect).dialect.GetName = "postgres" ∧
    ((builderWhereId postgresDialect).updateString paramsNameBob).2.args.toList
      = (builderWhereId postgresDialect).args.toList ++ setArgs paramsNameBob :=
  ⟨by decide, updateString_args_postgres (builderWhereId postgresDialect) paramsNameBob (by decide)⟩

/-- Counterexample to C1 as stated: on the `postgres` dialect, after
`Where("id = ?", 5)`, updating with `{"name": "Bob"}` leaves `[5, "Bob"]`, which
is neither `["Bob", 5]` nor the set-arguments followed by the WHERE arguments. -/
theorem updateString_args_postgres_counterexample :
    (builderWhereId postgresDialect).dialect.GetName = "postgres" ∧
    (builderWhereId postgresDialect).args.toList = [Value.int 5] ∧
    setArgs paramsNameBob = [Value.str "Bob"] ∧
    ((builderWhereId postgresDialect).updateString paramsNameBob).2.args.toList
      = [Value.int 5, Value.str "Bob"] ∧
    ((builderWhereId postgresDialect).updateString paramsNameBob).2.args.toList
      ≠ [Value.str "Bob", Value.int 5] ∧
    ((builderWhereId postgresDialect).updateString paramsNameBob).2.args.toList
      ≠ setArgs paramsNameBob ++ (builderWhereId postgresDialect).args.toList := by
  decide

/-- C2: on a dialect whose `GetName()` is not `postgres`, `updateString` leaves
the set-arguments (in lexicographic key order) followed by the pre-existing
arguments; on the generic `?` dialect, table `users`, params `{"name": "Bob"}`
after `Where("id = ?", 5)` renders `UPDATE "users" SET "name"=? WHERE (id = ?);`
with arguments `["Bob", 5]`. -/
theorem updateString_args_generic (s : SQLBuilder) (params : ParamMap)
    (h : s.dialect.GetName ≠ "postgres") :
    (s.updateString params).2.args.toList = setArgs params ++ s.args.toList ∧
    ((builderWhereId genericDialect).updateString paramsNameBob).1
      = "UPDATE \"users\" SET \"name\"=? WHERE (id = ?);" ∧
    ((builderWhereId genericDialect).updateString paramsNameBob).2.args.toList
      = [Value.str "Bob", Value.int 5] := by
  refine ⟨?_, by decide, by decide⟩
  have hn := updateLoop_name params (sortedParamKeys params)
    { updateFields := [], args := some [], dialect := s.dialect }
  simp only [Dialect.GetName] at h
  simp only [SQLBuilder.updateString, Dialect.GetName, hn, h, if_false, toList_append,
    updateLoop_args, setArgs]
  simp [Slice.toList]

/-- Witness for C2: the generic builder after `Where("id = ?", 5)` updated with
`{"name": "Bob"}`. -/
theorem updateString_args_generic_witness :
    (builderWhereId genericDialect).dialect.GetName ≠ "postgres" ∧
    ((builderWhereId genericDialect).updateString paramsNameBob).2.args.toList
      = setArgs paramsNameBob ++ (builderWhereId genericDialect).args.toList :=
  ⟨by decide,
    (updateString_args_generic (builderWhereId genericDialect) paramsNameBob (by decide)).1⟩

/-! ## C3: accumulation of WHERE predicates -/

theorem Join_cons (a : String) (l : List String) (sep : String) :
    Join (a :: l) sep = a ++ joinTail l sep := by
  induction l generalizing a with
  | nil => simp [Join, joinTail]
  | cons b rest ih => simp [Join, joinTail, ih, String.append_assoc]

theorem append_ne_empty (a b : String) (h : b ≠ "") : a ++ b ≠ "" := by
  intro hab
  apply h
  have := congrArg String.data hab
  simp only [String.data_append, List.append_eq_nil] at this
  exact String.ext this.2

theorem Where_where_of_empty (s : SQLBuilder) (f : String) (a : Slice) (h : s.«where» = "") :
    (s.Where f a).«where» = "WHERE (" ++ f ++ ")" := by
  unfold SQLBuilder.Where
  cases a with
  | none => simp [h]
  | some l => cases hs : s.args <;> simp [h, hs]

theorem Where_where_of_nonempty (s : SQLBuilder) (f : String) (a : Slice)
    (h : s.«where» ≠ "") : (s.Where f a).«where» = s.«where» ++ " AND (" ++ f ++ ")" := by
  unfold SQLBuilder.Where
  cases a with
  | none => simp [h]
  | some l => cases hs : s.args <;> simp [h, hs]

theorem Where_args (s : SQLBuilder) (f : String) (a : Slice) :
    (s.Where f a).args.toList = s.args.toList ++ a.toList := by
  unfold SQLBuilder.Where
  cases a with
  | none => by_cases h : s.«where» = "" <;> simp [h, toList_none]
  | some l =>
    cases hs : s.args <;> by_cases h : s.«where» = "" <;>
      simp [h, hs, toList_some, toList_none, toList_append]

theorem whereCalls_args (s : SQLBuilder) (calls : List (String × Slice)) :
    (whereCalls s calls).args.toList = s.args.toList ++ calls.flatMap (fun c => c.2.toList) := by
  induction calls generalizing s with
  | nil => simp [whereCalls]
  | cons c rest ih =>
    have := ih (s.Where c.1 c.2)
    simp only [whereCalls, List.foldl_cons] at this ⊢
    simp [this, Where_args, List.append_assoc]

theorem whereCalls_where_of_nonempty (s : SQLBuilder) (calls : List (String × Slice))
    (h : s.«where» ≠ "") :
    (whereCalls s calls).«where»
      = s.«where» ++ joinTail (calls.map (fun c => "(" ++ c.1 ++ ")")) " AND " := by
  induction calls generalizing s with
  | nil => simp [whereCalls, joinTail]
  | cons c rest ih =>
    have hne : (s.Where c.1 c.2).«where» ≠ "" := by
      rw [Where_where_of_nonempty s c.1 c.2 h]
      exact append_ne_empty _ _ (by decide)
    have := ih (s.Where c.1 c.2) hne
    simp only [whereCalls, List.foldl_cons] at this ⊢
    rw [this, Where_where_of_nonempty s c.1 c.2 h]
    have hsplit : (" AND (" : String) = " AND " ++ "(" := by decide
    simp only [List.map_cons, joinTail, String.append_assoc]
    rw [hsplit, String.append_assoc]

/-- C3: starting from a builder whose where text and argument sequence are
empty, after the calls `Where(f1, a1...), ..., Where(fn, an...)` (n >= 1) the
where text is `WHERE (f1) AND (f2) AND ... AND (fn)` and the argument sequence
is `a1 ++ a2 ++ ... ++ an`; a call without arguments leaves the argument slice
as it was. -/
theorem where_accumulation (s : SQLBuilder) (calls : List (String × Slice))
    (hw : s.«where» = "") (ha : s.args.toList = []) (hn : calls ≠ []) :
    (whereCalls s calls).«where»
      = "WHERE " ++ Join (calls.map (fun c => "(" ++ c.1 ++ ")")) " AND " ∧
    (whereCalls s calls).args.toList = calls.flatMap (fun c => c.2.toList) ∧
    (∀ (b : SQLBuilder) (f : String), (b.Where f none).args = b.args) := by
  refine ⟨?_, ?_, ?_⟩
  · cases calls with
    | nil => exact absurd rfl hn
    | cons c rest =>
      have hne : (s.Where c.1 c.2).«where» ≠ "" := by
        rw [Where_where_of_empty s c.1 c.2 hw]
        exact append_ne_empty _ _ (by decide)
      have := whereCalls_where_of_nonempty (s.Where c.1 c.2) rest hne
      simp only [whereCalls, List.foldl_cons] at this ⊢
      rw [this, Where_where_of_empty s c.1 c.2 hw, List.map_cons, Join_cons]
      have hsplit : ("WHERE (" : String) = "WHERE " ++ "(" := by decide
      simp only [String.append_assoc]
      rw [hsplit, String.append_assoc]
  · rw [whereCalls_args, ha, List.nil_append]
  · intro b f
    unfold SQLBuilder.Where
    by_cases h : b.«where» = "" <;> simp [h]

/-- Witness for C3: three calls on a fresh builder, the second one without
arguments. -/
theorem where_accumulation_witness :
    (whereCalls (newBuilder genericDialect "users")
        [("a = ?", some [Value.int 1]), ("b IS NULL", none),
          ("c IN (?, ?)", some [Value.str "x", Value.str "y"])]).«where»
      = "WHERE (a = ?) AND (b IS NULL) AND (c IN (?, ?))" ∧
    (whereCalls (newBuilder genericDialect "users")
        [("a = ?", some [Value.int 1]), ("b IS NULL", none),
          ("c IN (?, ?)", some [Value.str "x", Value.str "y"])]).args.toList
      = [Value.int 1, Value.str "x", Value.str "y"] := by
  have h := where_accumulation (newBuilder genericDialect "users")
    [("a = ?", some [Value.int 1]), ("b IS NULL", none),
      ("c IN (?, ?)", some [Value.str "x", Value.str "y"])] (by decide) (by decide) (by decide)
  exact ⟨h.1.trans (by decide), h.2.1.trans (by decide)⟩

/-! ## The key order and parameter maps -/

theorem lexLE_total (a b : List Char) : lexLE a b = true ∨ lexLE b a = true := by
  induction a generalizing b with
  | nil => simp [lexLE]
  | cons x xs ih =>
    cases b with
    | nil => simp [lexLE]
    | cons y ys =>
      rcases lt_trichotomy x y with h | h | h
      · left; simp [lexLE, h]
      · subst h; simpa [lexLE] using ih ys
      · right; simp [lexLE, h]

theorem lexLE_antisymm (a b : List Char) (h1 : lexLE a b = true) (h2 : lexLE b a = true) :
    a = b := by
  induction a generalizing b with
  | nil =>
    cases b with
    | nil => rfl
    | cons y ys => simp [lexLE] at h2
  | cons x xs ih =>
    cases b with
    | nil => simp [lexLE] at h1
    | cons y ys =>
      rcases lt_trichotomy x y with h | h | h
      · have := lt_asymm h
        simp [lexLE, h, this] at h2
      · subst h
        simp only [lexLE, lt_self_iff_false, if_false] at h1 h2
        rw [ih ys h1 h2]
      · have := lt_asymm h
        simp [lexLE, h, this] at h1

theorem lexLE_trans (a b c : List Char) (h1 : lexLE a b = true) (h2 : lexLE b c = true) :
    lexLE a c = true := by
  induction a generalizing b c with
  | nil => simp [lexLE]
  | cons x xs ih =>
    cases b with
    | nil => simp [lexLE] at h1
    | cons y ys =>
      cases c with
      | nil => simp [lexLE] at h2
      | cons z zs =>
        rcases lt_trichotomy x y with hxy | hxy | hxy
        · rcases lt_trichotomy y z with hyz | hyz | hyz
          · simp [lexLE, lt_trans hxy hyz]
          · subst hyz; simp [lexLE, hxy]
          · simp [lexLE, hyz, lt_asymm hyz] at h2
        · subst hxy
          rcases lt_trichotomy x z with hxz | hxz | hxz
          · simp [lexLE, hxz]
          · subst hxz
            simp only [lexLE, lt_self_iff_false, if_false] at h1 h2 ⊢
            exact ih ys zs h1 h2
          · simp [lexLE, hxz, lt_asymm hxz] at h2
        · simp [lexLE, hxy, lt_asymm hxy] at h1

theorem keyLE_isTotal : IsTotal String keyLE := ⟨fun a b => lexLE_total a.data b.data⟩

theorem keyLE_isTrans : IsTrans String keyLE :=
  ⟨fun a b c h1 h2 => lexLE_trans a.data b.data c.data h1 h2⟩

theorem keyLE_isAntisymm : IsAntisymm String keyLE :=
  ⟨fun a b h1 h2 => String.ext (lexLE_antisymm a.data b.data h1 h2)⟩

theorem sortedParamKeys_sorted (params : ParamMap) :
    List.Sorted keyLE (sortedParamKeys params) :=
  @List.sorted_insertionSort _ keyLE _ keyLE_isTotal keyLE_isTrans _

theorem sortedParamKeys_perm (params : ParamMap) :
    (sortedParamKeys params).Perm (params.entries.map Prod.fst) :=
  List.perm_insertionSort keyLE _

theorem sortedParamKeys_congr (params params2 : ParamMap)
    (h : params2.entries.Perm params.entries) :
    sortedParamKeys params2 = sortedParamKeys params := by
  have hp : (sortedParamKeys params2).Perm (sortedParamKeys params) :=
    (sortedParamKeys_perm params2).trans
      ((h.map Prod.fst).trans (sortedParamKeys_perm params).symm)
  exact @List.eq_of_perm_of_sorted _ keyLE keyLE_isAntisymm _ _ hp
    (sortedParamKeys_sorted params2) (sortedParamKeys_sorted params)

theorem lookup_of_mem (l : List (String × Value)) (hnd : (l.map Prod.fst).Nodup)
    (k : String) (v : Value) (h : (k, v) ∈ l) : l.lookup k = some v := by
  induction l with
  | nil => simp at h
  | cons p rest ih =>
    obtain ⟨k2, v2⟩ := p
    simp only [List.map_cons, List.nodup_cons, List.mem_map] at hnd
    rcases List.mem_cons.1 h with heq | hmem
    · cases heq; simp
    · have hne : k ≠ k2 := by
        rintro rfl
        exact hnd.1 ⟨(k, v), hmem, rfl⟩
      have hb : (k == k2) = false := by simpa using hne
      rw [List.lookup_cons, hb]
      exact ih hnd.2 hmem

theorem get_congr (params params2 : ParamMap) (h : params2.entries.Perm params.entries)
    (k : String) : params2.get k = params.get k := by
  unfold ParamMap.get
  cases hl : params.entries.lookup k with
  | none =>
    have : params2.entries.lookup k = none := by
      rw [List.lookup_eq_none_iff] at hl ⊢
      intro p hp
      exact hl p (h.mem_iff.1 hp)
    rw [this]
  | some v =>
    have hmem : (k, v) ∈ params.entries := by
      obtain ⟨l1, l2, heq, -⟩ := List.lookup_eq_some_iff.1 hl
      rw [heq]; simp
    rw [lookup_of_mem params2.entries params2.nodup k v (h.mem_iff.2 hmem)]

/-! ## C4: `insertString` -/

theorem insertLoop_spec (params : ParamMap) (keys : List String) (st : InsertLoop) :
    (keys.foldl (insertStep params) st).cols = st.cols ++ keys.map st.s.dialect.Quote ∧
    (keys.foldl (insertStep params) st).vals
      = st.vals ++ placeholders st.s.dialect keys.length ∧
    (keys.foldl (insertStep params) st).s.args.toList
      = st.s.args.toList ++ keys.map params.get ∧
    (keys.foldl (insertStep params) st).s.table = st.s.table ∧
    (keys.foldl (insertStep params) st).s.dialect.quote = st.s.dialect.quote := by
  induction keys generalizing st with
  | nil => simp [placeholders]
  | cons k ks ih =>
    obtain ⟨h1, h2, h3, h4, h5⟩ := ih (insertStep params st k)
    simp only [List.foldl_cons, h1, h2, h3, h4, h5]
    simp [insertStep, placeholders, toList_append, Dialect.Placeholder, Dialect.Quote]

theorem insertString_spec_aux (s : SQLBuilder) (params : ParamMap) :
    (s.insertString params).1
      = "INSERT INTO " ++ s.dialect.Quote s.table ++ " ("
        ++ Join ((sortedParamKeys params).map s.dialect.Quote) "," ++ ") VALUES("
        ++ Join (placeholders s.dialect (sortedParamKeys params).length) "," ++ ");" ∧
    (s.insertString params).2.args.toList
      = s.args.toList ++ (sortedParamKeys params).map params.get := by
  obtain ⟨h1, h2, h3, h4, h5⟩ := insertLoop_spec params (sortedParamKeys params)
    { cols := [], vals := [], s := s }
  refine ⟨?_, ?_⟩
  · simp only [SQLBuilder.insertString, h1, h2, h4, Dialect.Quote, h5]
    simp
  · simp only [SQLBuilder.insertString, h3]

theorem insertStep_congr (params params2 : ParamMap)
    (h : params2.entries.Perm params.entries) : insertStep params2 = insertStep params := by
  funext st k
  simp [insertStep, get_congr params params2 h k]

/-- C4: `insertString` returns `INSERT INTO <quoted table> (<quoted keys>)
VALUES(<placeholders>);` with the keys in lexicographic order (a sorted
rearrangement of the map's keys) joined by `,` and one `Placeholder()` result
per key; the argument sequence afterwards is the previous one followed by the
map's values in that key order; the result does not depend on the iteration
order of the map. -/
theorem insertString_spec (s : SQLBuilder) (params : ParamMap) :
    (s.insertString params).1
      = "INSERT INTO " ++ s.dialect.Quote s.table ++ " ("
        ++ Join ((sortedParamKeys params).map s.dialect.Quote) "," ++ ") VALUES("
        ++ Join (placeholders s.dialect (sortedParamKeys params).length) "," ++ ");" ∧
    (s.insertString params).2.args.toList
      = s.args.toList ++ (sortedParamKeys params).map params.get ∧
    List.Sorted keyLE (sortedParamKeys params) ∧
    (sortedParamKeys params).Perm (params.entries.map Prod.fst) ∧
    (∀ params2 : ParamMap, params2.entries.Perm params.entries →
      s.insertString params2 = s.insertString params) := by
  obtain ⟨h1, h2, h3, h4, h5⟩ := insertLoop_spec params (sortedParamKeys params)
    { cols := [], vals := [], s := s }
  refine ⟨?_, ?_, sortedParamKeys_sorted params, sortedParamKeys_perm params, ?_⟩
  · simp only [SQLBuilder.insertString, h1, h2, h4, Dialect.Quote, h5]
    simp
  · simp only [SQLBuilder.insertString, h3]
  · intro params2 hp
    simp only [SQLBuilder.insertString, sortedParamKeys_congr params params2 hp,
      insertStep_congr params params2 hp]

/-- Witness for C4: the map `{"name": "Bob", "age": 30}` in both iteration
orders, inserted into `users` after `Where("id = ?", 5)`. -/
theorem insertString_spec_witness :
    paramsAgeName.entries.Perm paramsNameAge.entries ∧
    (builderWhereId genericDialect).insertString paramsAgeName
      = (builderWhereId genericDialect).insertString paramsNameAge ∧
    ((builderWhereId genericDialect).insertString paramsNameAge).1
      = "INSERT INTO \"users\" (\"age\",\"name\") VALUES(?,?);" ∧
    ((builderWhereId genericDialect).insertString paramsNameAge).2.args.toList
      = [Value.int 5, Value.int 30, Value.str "Bob"] :=
  ⟨by decide,
    (insertString_spec (builderWhereId genericDialect) paramsNameAge).2.2.2.2 paramsAgeName
      (by decide),
    by decide, by decide⟩

/-! ## Counting placeholder tokens -/

theorem rdropWhile_count (p : Char → Bool) (l : List Char) (c : Char) (h : p c = false) :
    (l.rdropWhile p).count c = l.count c := by
  induction l using List.reverseRecOn with
  | nil => simp
  | append_singleton l x ih =>
    rw [List.rdropWhile_concat]
    by_cases hx : p x = true
    · have hne : x ≠ c := by rintro rfl; simp [h] at hx
      have h0 : List.count c [x] = 0 := List.count_eq_zero.2 (by simp [Ne.symm hne])
      simp [hx, ih, List.count_append, h0]
    · simp [hx]

theorem countQ_append (a b : String) : countQ (a ++ b) = countQ a + countQ b := by
  simp [countQ, List.count_append]

theorem countQ_TrimRight (s : String) : countQ (TrimRight s " ") = countQ s := by
  unfold countQ TrimRight
  exact rdropWhile_count _ _ _ (by decide)

theorem countQ_literals :
    countQ "" = 0 ∧ countQ " " = 0 ∧ countQ ";" = 0 ∧ countQ "," = 0 ∧ countQ "=" = 0 ∧
    countQ ")" = 0 ∧ countQ "*" = 0 ∧ countQ "?" = 1 ∧
    countQ "WHERE (" = 0 ∧ countQ " AND (" = 0 ∧
    countQ "SELECT " = 0 ∧ countQ " FROM " = 0 ∧ countQ " force index(" = 0 ∧
    countQ "LIMIT " = 0 ∧ countQ "OFFSET " = 0 ∧ countQ "ORDER BY " = 0 ∧
    countQ "SELECT count(*) FROM " = 0 ∧
    countQ "INSERT INTO " = 0 ∧ countQ " (" = 0 ∧ countQ ") VALUES(" = 0 ∧ countQ ");" = 0 ∧
    countQ "UPDATE " = 0 ∧ countQ " SET " = 0 ∧ countQ "DELETE FROM " = 0 := by
  decide

theorem countQ_joinTail (l : List String) (sep : String) (h : countQ sep = 0) :
    countQ (joinTail l sep) = (l.map countQ).sum := by
  induction l with
  | nil => simp [joinTail, countQ_literals]
  | cons a rest ih => simp [joinTail, countQ_append, ih, h]

theorem countQ_Join (l : List String) (sep : String) (h : countQ sep = 0) :
    countQ (Join l sep) = (l.map countQ).sum := by
  cases l with
  | nil => simp [Join, countQ_literals]
  | cons a rest => simp [Join_cons, countQ_append, countQ_joinTail _ _ h]

theorem Where_countQ (s : SQLBuilder) (f : String) (a : Slice) :
    countQ (s.Where f a).«where» = countQ s.«where» + countQ f := by
  by_cases h : s.«where» = ""
  · rw [Where_where_of_empty s f a h, h]
    simp [countQ_append, countQ_literals]
  · rw [Where_where_of_nonempty s f a h]
    simp [countQ_append, countQ_literals]

theorem whereCalls_countQ (s : SQLBuilder) (calls : List (String × Slice))
    (hc : ∀ c ∈ calls, countQ c.1 = c.2.toList.length) :
    countQ (whereCalls s calls).«where» + s.args.toList.length
      = countQ s.«where» + (whereCalls s calls).args.toList.length := by
  induction calls generalizing s with
  | nil => simp [whereCalls]
  | cons c rest ih =>
    have h1 := ih (s.Where c.1 c.2) (fun d hd => hc d (List.mem_cons_of_mem _ hd))
    have h2 := hc c (List.mem_cons_self _ _)
    simp only [whereCalls, List.foldl_cons] at h1 ⊢
    rw [Where_countQ, Where_args, List.length_append] at h1
    omega

theorem Where_frame (s : SQLBuilder) (f : String) (a : Slice) :
    (s.Where f a).dialect = s.dialect ∧ (s.Where f a).fields = s.fields ∧
    (s.Where f a).table = s.table ∧ (s.Where f a).forceIndex = s.forceIndex ∧
    (s.Where f a).order = s.order ∧ (s.Where f a).limit = s.limit ∧
    (s.Where f a).offset = s.offset ∧ (s.Where f a).hint = s.hint := by
  unfold SQLBuilder.Where
  cases a with
  | none => by_cases h : s.«where» = "" <;> simp [h]
  | some l => cases hs : s.args <;> by_cases h : s.«where» = "" <;> simp [h, hs]

theorem whereCalls_frame (s : SQLBuilder) (calls : List (String × Slice)) :
    (whereCalls s calls).dialect = s.dialect ∧ (whereCalls s calls).fields = s.fields ∧
    (whereCalls s calls).table = s.table ∧ (whereCalls s calls).forceIndex = s.forceIndex ∧
    (whereCalls s calls).order = s.order ∧ (whereCalls s calls).limit = s.limit ∧
    (whereCalls s calls).offset = s.offset ∧ (whereCalls s calls).hint = s.hint := by
  induction calls generalizing s with
  | nil => simp [whereCalls]
  | cons c rest ih =>
    obtain ⟨h1, h2, h3, h4, h5, h6, h7, h8⟩ := ih (s.Where c.1 c.2)
    obtain ⟨g1, g2, g3, g4, g5, g6, g7, g8⟩ := Where_frame s c.1 c.2
    simp only [whereCalls, List.foldl_cons] at h1 h2 h3 h4 h5 h6 h7 h8 ⊢
    exact ⟨h1.trans g1, h2.trans g2, h3.trans g3, h4.trans g4, h5.trans g5, h6.trans g6,
      h7.trans g7, h8.trans g8⟩

theorem queryString_countQ (s : SQLBuilder) (hhint : countQ s.hint = 0)
    (hfields : countQ s.fields = 0) (htable : countQ (s.dialect.Quote s.table) = 0)
    (hfi : countQ s.forceIndex = 0) (horder : countQ s.order = 0)
    (hlimit : countQ s.limit = 0) (hoffset : countQ s.offset = 0) :
    countQ s.queryString.1 = countQ s.«where» := by
  unfold SQLBuilder.queryString
  by_cases hf : s.fields = "" <;> by_cases h1 : s.forceIndex = "" <;>
    by_cases h2 : s.order = "" <;> by_cases h3 : s.limit = "" <;>
    by_cases h4 : s.offset = "" <;>
    simp [hf, h1, h2, h3, h4, countQ_append, countQ_TrimRight, countQ_literals,
      SQLBuilder.queryTable, SQLBuilder.orderFormat, SQLBuilder.limitFormat,
      SQLBuilder.offsetFormat, hhint, hfields, htable, hfi, horder, hlimit, hoffset]

theorem countString_countQ (s : SQLBuilder) (hhint : countQ s.hint = 0)
    (htable : countQ (s.dialect.Quote s.table) = 0) :
    countQ s.countString.1 = countQ s.«where» := by
  simp [SQLBuilder.countString, countQ_append, countQ_TrimRight, countQ_literals, hhint, htable]

theorem deleteString_countQ (s : SQLBuilder) (htable : countQ (s.dialect.Quote s.table) = 0) :
    countQ s.deleteString.1 = countQ s.«where» := by
  simp [SQLBuilder.deleteString, countQ_append, countQ_TrimRight, countQ_literals, htable]

theorem updateStep_dialect (params : ParamMap) (st : UpdateLoop) (k : String) :
    (updateStep params st k).dialect.quote = st.dialect.quote ∧
    (updateStep params st k).dialect.next = st.dialect.next := by
  unfold updateStep
  split <;> simp [Dialect.Placeholder]

theorem updateLoop_dialect (params : ParamMap) (keys : List String) (st : UpdateLoop) :
    (keys.foldl (updateStep params) st).dialect.quote = st.dialect.quote ∧
    (keys.foldl (updateStep params) st).dialect.next = st.dialect.next := by
  induction keys generalizing st with
  | nil => simp
  | cons k ks ih =>
    obtain ⟨h1, h2⟩ := ih (updateStep params st k)
    obtain ⟨g1, g2⟩ := updateStep_dialect params st k
    exact ⟨h1.trans g1, h2.trans g2⟩

theorem updateStep_countQ (params : ParamMap) (st : UpdateLoop) (k : String)
    (hph : ∀ n, (st.dialect.next n).1 = "?") (hk : countQ (st.dialect.quote k) = 0)
    (hr : rawBalanced (params.get k) = true) :
    ((updateStep params st k).updateFields.map countQ).sum
      = (st.updateFields.map countQ).sum + (setArgsOf (params.get k)).length := by
  unfold updateStep
  split
  · next e eargs h =>
    rw [h] at hr
    simp only [rawBalanced, beq_iff_eq] at hr
    simp [countQ_append, countQ_literals, Dialect.Quote, hk, hr, setArgsOf, h]
  · next v h =>
    have hs : (setArgsOf (params.get k)).length = 1 := by
      cases hv : params.get k <;> simp_all [setArgsOf]
    simp [countQ_append, countQ_literals, Dialect.Quote, Dialect.Placeholder, hk, hph, hs]

theorem updateLoop_countQ (params : ParamMap) (keys : List String) (st : UpdateLoop)
    (hph : ∀ n, (st.dialect.next n).1 = "?")
    (hkeys : ∀ k ∈ keys, countQ (st.dialect.quote k) = 0)
    (hraw : ∀ k ∈ keys, rawBalanced (params.get k) = true) :
    ((keys.foldl (updateStep params) st).updateFields.map countQ).sum
      = (st.updateFields.map countQ).sum
        + (keys.flatMap (fun k => setArgsOf (params.get k))).length := by
  induction keys generalizing st with
  | nil => simp
  | cons k ks ih =>
    obtain ⟨g1, g2⟩ := updateStep_dialect params st k
    have h1 := ih (updateStep params st k) (by rw [g2]; exact hph)
      (fun j hj => by rw [g1]; exact hkeys j (List.mem_cons_of_mem _ hj))
      (fun j hj => hraw j (List.mem_cons_of_mem _ hj))
    have h2 := updateStep_countQ params st k hph (hkeys k (List.mem_cons_self _ _))
      (hraw k (List.mem_cons_self _ _))
    simp only [List.foldl_cons, List.flatMap_cons, List.length_append]
    omega

theorem updateString_args_length (s : SQLBuilder) (params : ParamMap) :
    (s.updateString params).2.args.toList.length
      = s.args.toList.length + (setArgs params).length := by
  by_cases h : (List.foldl (updateStep params)
      { updateFields := [], args := some [], dialect := s.dialect }
      (sortedParamKeys params)).dialect.GetName = "postgres"
  · simp only [SQLBuilder.updateString, h, if_true, toList_append, updateLoop_args, setArgs,
      toList_some, List.nil_append, List.length_append]
  · simp only [SQLBuilder.updateString, h, if_false, toList_append, updateLoop_args, setArgs,
      toList_some, List.nil_append, List.length_append]
    omega

theorem updateString_countQ (s : SQLBuilder) (params : ParamMap)
    (hph : ∀ n, (s.dialect.next n).1 = "?")
    (htable : countQ (s.dialect.Quote s.table) = 0)
    (hkeys : ∀ k ∈ sortedParamKeys params, countQ (s.dialect.Quote k) = 0)
    (hraw : ∀ k ∈ sortedParamKeys params, rawBalanced (params.get k) = true) :
    countQ (s.updateString params).1 = (setArgs params).length + countQ s.«where» := by
  have hl := updateLoop_countQ params (sortedParamKeys params)
    { updateFields := [], args := some [], dialect := s.dialect } hph hkeys hraw
  obtain ⟨g1, -⟩ := updateLoop_dialect params (sortedParamKeys params)
    { updateFields := [], args := some [], dialect := s.dialect }
  simp only [Dialect.Quote] at htable
  by_cases h : (List.foldl (updateStep params)
      { updateFields := [], args := some [], dialect := s.dialect }
      (sortedParamKeys params)).dialect.GetName = "postgres" <;>
    simp [SQLBuilder.updateString, h, countQ_append, countQ_TrimRight, countQ_literals,
      countQ_Join, hl, setArgs, Dialect.Quote, g1, htable]

theorem placeholders_countQ (d : Dialect) (n : Nat) (hph : ∀ m, (d.next m).1 = "?") :
    ((placeholders d n).map countQ).sum = n := by
  induction n generalizing d with
  | zero => simp [placeholders]
  | succ n ih =>
    have := ih d.Placeholder.2 (by simpa [Dialect.Placeholder] using hph)
    simp only [placeholders, List.map_cons, List.sum_cons, this]
    simp [Dialect.Placeholder, hph, countQ_literals]
    omega

theorem insertString_countQ (s : SQLBuilder) (params : ParamMap)
    (hph : ∀ n, (s.dialect.next n).1 = "?")
    (htable : countQ (s.dialect.Quote s.table) = 0)
    (hkeys : ∀ k ∈ sortedParamKeys params, countQ (s.dialect.Quote k) = 0) :
    countQ (s.insertString params).1 = (sortedParamKeys params).length := by
  obtain ⟨h1, h2, -, h4, h5⟩ := insertLoop_spec params (sortedParamKeys params)
    { cols := [], vals := [], s := s }
  have hc : (((sortedParamKeys params).map s.dialect.Quote).map countQ).sum = 0 := by
    apply List.sum_eq_zero
    intro x hx
    simp only [List.mem_map] at hx
    obtain ⟨y, ⟨k, hk, rfl⟩, rfl⟩ := hx
    exact hkeys k hk
  simp only [Dialect.Quote] at htable
  simp only [SQLBuilder.insertString, h1, h2, h4, List.nil_append, countQ_append, countQ_Join,
    countQ_literals, hc, placeholders_countQ _ _ hph, Dialect.Quote, h5, htable]
  omega

theorem queryString_args (s : SQLBuilder) : s.queryString.2.args = s.args := by
  by_cases hf : s.fields = "" <;> simp [SQLBuilder.queryString, hf]

/-! ## C5: the placeholder count -/

/-- C5 (as amended): on a dialect whose `Placeholder()` always returns `?`, take
a builder reached from one with empty where text and no arguments by `Where`
calls whose fragments each hold exactly as many `?` as the call has arguments,
and suppose that hint, fields, quoted table, force index, order, limit, offset
and the quoted keys hold no `?` and every Raw Expression of the map holds as
many `?` as it has arguments.  Then for `queryString`, `countString`,
`deleteString` and `updateString` the number of `?` in the text equals the
length of the argument sequence after the operation; for `insertString` the
number of `?` in the text plus the number of arguments accumulated before the
call equals that length. -/
theorem placeholder_count (s0 : SQLBuilder) (calls : List (String × Slice))
    (params : ParamMap)
    (hph : ∀ n, (s0.dialect.next n).1 = "?")
    (hw : s0.«where» = "") (ha : s0.args.toList = [])
    (hcalls : ∀ c ∈ calls, countQ c.1 = c.2.toList.length)
    (hhint : countQ s0.hint = 0) (hfields : countQ s0.fields = 0)
    (htable : countQ (s0.dialect.Quote s0.table) = 0)
    (hfi : countQ s0.forceIndex = 0) (horder : countQ s0.order = 0)
    (hlimit : countQ s0.limit = 0) (hoffset : countQ s0.offset = 0)
    (hkeys : ∀ k ∈ sortedParamKeys params, countQ (s0.dialect.Quote k) = 0)
    (hraw : ∀ k ∈ sortedParamKeys params, rawBalanced (params.get k) = true) :
    countQ (whereCalls s0 calls).queryString.1
      = (whereCalls s0 calls).queryString.2.args.toList.length ∧
    countQ (whereCalls s0 calls).countString.1
      = (whereCalls s0 calls).countString.2.args.toList.length ∧
    countQ (whereCalls s0 calls).deleteString.1
      = (whereCalls s0 calls).deleteString.2.args.toList.length ∧
    countQ ((whereCalls s0 calls).updateString params).1
      = ((whereCalls s0 calls).updateString params).2.args.toList.length ∧
    countQ ((whereCalls s0 calls).insertString params).1
        + (whereCalls s0 calls).args.toList.length
      = ((whereCalls s0 calls).insertString params).2.args.toList.length := by
  have hbal := whereCalls_countQ s0 calls hcalls
  rw [hw, ha] at hbal
  simp only [countQ_literals, List.length_nil, Nat.add_zero, Nat.zero_add] at hbal
  obtain ⟨f1, f2, f3, f4, f5, f6, f7, f8⟩ := whereCalls_frame s0 calls
  rw [← f1] at hph hkeys htable
  rw [← f2] at hfields
  rw [← f3] at htable
  rw [← f4] at hfi
  rw [← f5] at horder
  rw [← f6] at hlimit
  rw [← f7] at hoffset
  rw [← f8] at hhint
  generalize whereCalls s0 calls = s at *
  refine ⟨?_, ?_, ?_, ?_, ?_⟩
  · rw [queryString_countQ s hhint hfields htable hfi horder hlimit hoffset,
      queryString_args, hbal]
  · rw [countString_countQ s hhint htable, hbal]
    rfl
  · rw [deleteString_countQ s htable, hbal]
    rfl
  · rw [updateString_countQ s params hph htable hkeys hraw, updateString_args_length, hbal]
    omega
  · rw [insertString_countQ s params hph htable hkeys,
      (insertString_spec_aux s params).2, List.length_append, List.length_map]
    omega

/-- Witness for C5: two balanced `Where` calls on a fresh `?`-dialect builder
and the map `{"name": "Bob", "age": 30}`. -/
theorem placeholder_count_witness :
    countQ (whereCalls (newBuilder genericDialect "users")
        [("a = ?", some [Value.int 1]), ("b IS NULL", none)]).queryString.1
      = (whereCalls (newBuilder genericDialect "users")
        [("a = ?", some [Value.int 1]), ("b IS NULL", none)]).queryString.2.args.toList.length ∧
    countQ ((whereCalls (newBuilder genericDialect "users")
        [("a = ?", some [Value.int 1]), ("b IS NULL", none)]).updateString paramsNameAge).1
      = 3 :=
  have h := placeholder_count (newBuilder genericDialect "users")
    [("a = ?", some [Value.int 1]), ("b IS NULL", none)] paramsNameAge
    (fun _ => rfl) (by decide) (by decide) (by decide) (by decide) (by decide) (by decide)
    (by decide) (by decide) (by decide) (by decide) (by decide) (by decide)
  ⟨h.1, h.2.2.2.1.trans (by decide)⟩

/-- Counterexample to C5 as stated, on the generic `?` dialect: after
`Where("id = ?")` without arguments, `deleteString` renders one `?` and leaves
no argument; after `Where("id = ?", 5)`, `insertString` with `{"name": "Bob"}`
renders one `?` and leaves two arguments. -/
theorem placeholder_count_counterexample :
    (builderWhereNoArgs genericDialect).deleteString.1
      = "DELETE FROM \"users\" WHERE (id = ?);" ∧
    countQ (builderWhereNoArgs genericDialect).deleteString.1 = 1 ∧
    (builderWhereNoArgs genericDialect).deleteString.2.args.toList.length = 0 ∧
    ((builderWhereId genericDialect).insertString paramsNameBob).1
      = "INSERT INTO \"users\" (\"name\") VALUES(?);" ∧
    countQ ((builderWhereId genericDialect).insertString paramsNameBob).1 = 1 ∧
    ((builderWhereId genericDialect).insertString paramsNameBob).2.args.toList
      = [Value.int 5, Value.str "Bob"] ∧
    countQ (builderWhereNoArgs genericDialect).deleteString.1
      ≠ (builderWhereNoArgs genericDialect).deleteString.2.args.toList.length ∧
    countQ ((builderWhereId genericDialect).insertString paramsNameBob).1
      ≠ ((builderWhereId genericDialect).insertString paramsNameBob).2.args.toList.length := by
  decide

/-! ## The shape of the rendered texts -/

theorem queryString_text (s : SQLBuilder) :
    s.queryString.1
      = TrimRight (s.hint ++ "SELECT " ++ (if s.fields = "" then "*" else s.fields) ++ " FROM "
          ++ s.queryTable ++ " " ++ s.«where» ++ " " ++ s.orderFormat ++ " " ++ s.limitFormat
          ++ " " ++ s.offsetFormat) " " ++ ";" := by
  by_cases hf : s.fields = "" <;>
    simp [SQLBuilder.queryString, hf, SQLBuilder.queryTable, SQLBuilder.orderFormat,
      SQLBuilder.limitFormat, SQLBuilder.offsetFormat]

theorem updateString_text (s : SQLBuilder) (params : ParamMap) :
    (s.updateString params).1
      = TrimRight ("UPDATE " ++ s.dialect.Quote s.table ++ " SET "
          ++ Join ((sortedParamKeys params).foldl (updateStep params)
              { updateFields := [], args := some [], dialect := s.dialect }).updateFields ","
          ++ " " ++ s.«where») " " ++ ";" := by
  obtain ⟨g1, -⟩ := updateLoop_dialect params (sortedParamKeys params)
    { updateFields := [], args := some [], dialect := s.dialect }
  by_cases h : (List.foldl (updateStep params)
      { updateFields := [], args := some [], dialect := s.dialect }
      (sortedParamKeys params)).dialect.GetName = "postgres" <;>
    simp [SQLBuilder.updateString, h, Dialect.Quote, g1]

theorem mem_data_append (c : Char) (a b : String) :
    c ∈ (a ++ b).data ↔ c ∈ a.data ∨ c ∈ b.data := by
  simp [String.data_append]

theorem rdropWhile_snoc_last (p : Char → Bool) (l : List Char) (x : Char) (hx : x ∈ l)
    (hp : p x = false) (t : Char) :
    ∃ pre c, l.rdropWhile p ++ [t] = pre ++ [c, t] ∧ p c = false ∧ c ∈ l := by
  have hl : l.rdropWhile p ≠ [] := by
    intro h
    rw [List.rdropWhile_eq_nil_iff] at h
    simp [h x hx] at hp
  refine ⟨(l.rdropWhile p).dropLast, (l.rdropWhile p).getLast hl, ?_, ?_, ?_⟩
  · exact (congrArg (fun r => r ++ [t]) (List.dropLast_append_getLast hl).symm).trans (by simp)
  · simpa using List.rdropWhile_last_not p l hl
  · exact (List.rdropWhile_prefix p (l := l)).subset (List.getLast_mem hl)

theorem trim_semicolon (q : String) (x : Char) (hx : x ∈ q.data) (hns : x ≠ ' ') :
    ∃ pre c, (TrimRight q " " ++ ";").data = pre ++ [c, ';'] ∧ c ≠ ' ' ∧ c ∈ q.data := by
  obtain ⟨pre, c, h1, h2, h3⟩ := rdropWhile_snoc_last
    (fun c => decide (c ∈ (" " : String).data)) q.data x hx
    (by have hsp : (" " : String).data = [' '] := rfl
        simp [hsp, hns]) ';'
  refine ⟨pre, c, ?_, ?_, h3⟩
  · rw [← h1]; rfl
  · intro hc
    subst hc
    revert h2
    decide

theorem queryString_ends (s : SQLBuilder) :
    ∃ pre c, s.queryString.1.data = pre ++ [c, ';'] ∧ c ≠ ' ' ∧
      c ∈ (s.hint ++ "SELECT " ++ (if s.fields = "" then "*" else s.fields) ++ " FROM "
          ++ s.queryTable ++ " " ++ s.«where» ++ " " ++ s.orderFormat ++ " " ++ s.limitFormat
          ++ " " ++ s.offsetFormat).data := by
  rw [queryString_text]
  apply trim_semicolon _ 'S' _ (by decide)
  have hS : 'S' ∈ ("SELECT " : String).data := by decide
  simp [mem_data_append, hS]

theorem countString_ends (s : SQLBuilder) :
    ∃ pre c, s.countString.1.data = pre ++ [c, ';'] ∧ c ≠ ' ' ∧
      c ∈ (s.hint ++ "SELECT count(*) FROM " ++ s.dialect.Quote s.table ++ " "
          ++ s.«where»).data := by
  apply trim_semicolon _ 'S' _ (by decide)
  have hS : 'S' ∈ ("SELECT count(*) FROM " : String).data := by decide
  simp [mem_data_append, hS]

theorem deleteString_ends (s : SQLBuilder) :
    ∃ pre c, s.deleteString.1.data = pre ++ [c, ';'] ∧ c ≠ ' ' ∧
      c ∈ ("DELETE FROM " ++ s.dialect.Quote s.table ++ " " ++ s.«where»).data := by
  apply trim_semicolon _ 'D' _ (by decide)
  have hD : 'D' ∈ ("DELETE FROM " : String).data := by decide
  simp [mem_data_append, hD]

theorem updateString_ends (s : SQLBuilder) (params : ParamMap) :
    ∃ pre c, (s.updateString params).1.data = pre ++ [c, ';'] ∧ c ≠ ' ' ∧
      c ∈ ("UPDATE " ++ s.dialect.Quote s.table ++ " SET "
          ++ Join ((sortedParamKeys params).foldl (updateStep params)
              { updateFields := [], args := some [], dialect := s.dialect }).updateFields ","
          ++ " " ++ s.«where»).data := by
  rw [updateString_text]
  apply trim_semicolon _ 'U' _ (by decide)
  have hU : 'U' ∈ ("UPDATE " : String).data := by decide
  simp [mem_data_append, hU]

theorem insertString_ends (s : SQLBuilder) (params : ParamMap) :
    ∃ pre, (s.insertString params).1.data = pre ++ [')', ';'] := by
  have hlit : (");" : String).data = [')', ';'] := rfl
  rw [SQLBuilder.insertString]
  simp only [String.data_append, hlit]
  exact ⟨_, rfl⟩

/-! ## C6: no trailing space before the final `;` -/

/-- C6: for every builder state (hence every dialect) and parameter map, the
text returned by each of `queryString`, `countString`, `insertString`,
`updateString` and `deleteString` ends with `;`, and the character immediately
before that final `;` is not a space. -/
theorem no_trailing_space (s : SQLBuilder) (params : ParamMap) :
    endsWithoutTrailingSpace s.queryString.1 ∧
    endsWithoutTrailingSpace s.countString.1 ∧
    endsWithoutTrailingSpace (s.insertString params).1 ∧
    endsWithoutTrailingSpace (s.updateString params).1 ∧
    endsWithoutTrailingSpace s.deleteString.1 := by
  refine ⟨?_, ?_, ?_, ?_, ?_⟩
  · obtain ⟨pre, c, h1, h2, -⟩ := queryString_ends s
    exact ⟨pre, c, h1, h2⟩
  · obtain ⟨pre, c, h1, h2, -⟩ := countString_ends s
    exact ⟨pre, c, h1, h2⟩
  · obtain ⟨pre, h1⟩ := insertString_ends s params
    exact ⟨pre, ')', h1, by decide⟩
  · obtain ⟨pre, c, h1, h2, -⟩ := updateString_ends s params
    exact ⟨pre, c, h1, h2⟩
  · obtain ⟨pre, c, h1, h2, -⟩ := deleteString_ends s
    exact ⟨pre, c, h1, h2⟩

/-! ## C8: `queryString` -/

/-- C8: `queryString` returns hint, `SELECT `, the field list (`*` when unset),
` FROM `, the quoted table (followed by ` force index(<forceIndex>)` exactly
when `forceIndex` is non-empty), then where, `ORDER BY <order>`, `LIMIT <limit>`
and `OFFSET <offset>` (each empty when unset) separated by single spaces, with
trailing spaces removed and `;` appended; the argument slice is left untouched.
Table `users`, `Where("age > ?", 21)`, order `name`, limit `10` renders
`SELECT * FROM "users" WHERE (age > ?) ORDER BY name LIMIT 10;` with `[21]`. -/
theorem queryString_spec (s : SQLBuilder) :
    s.queryString.1
      = TrimRight (s.hint ++ "SELECT " ++ (if s.fields = "" then "*" else s.fields) ++ " FROM "
          ++ (s.dialect.Quote s.table
              ++ (if s.forceIndex = "" then "" else " force index(" ++ s.forceIndex ++ ")"))
          ++ " " ++ s.«where» ++ " "
          ++ (if s.order = "" then "" else "ORDER BY " ++ s.order) ++ " "
          ++ (if s.limit = "" then "" else "LIMIT " ++ s.limit) ++ " "
          ++ (if s.offset = "" then "" else "OFFSET " ++ s.offset)) " " ++ ";" ∧
    s.queryString.2.args = s.args ∧
    builderSelectExample.queryString.1
      = "SELECT * FROM \"users\" WHERE (age > ?) ORDER BY name LIMIT 10;" ∧
    builderSelectExample.queryString.2.args.toList = [Value.int 21] := by
  refine ⟨?_, queryString_args s, by decide, by decide⟩
  rw [queryString_text]
  by_cases h1 : s.forceIndex = "" <;> by_cases h2 : s.order = "" <;>
    by_cases h3 : s.limit = "" <;> by_cases h4 : s.offset = "" <;>
    simp [h1, h2, h3, h4, SQLBuilder.queryTable, SQLBuilder.orderFormat,
      SQLBuilder.limitFormat, SQLBuilder.offsetFormat]

/-! ## C9: rendering of `updateString` -/

theorem updateLoop_fields (params : ParamMap) (keys : List String) (st : UpdateLoop) :
    (keys.foldl (updateStep params) st).updateFields
      = st.updateFields ++ setList params st.dialect keys ∧
    (keys.foldl (updateStep params) st).dialect = setDialect params st.dialect keys := by
  induction keys generalizing st with
  | nil => simp [setList, setDialect]
  | cons k ks ih =>
    obtain ⟨h1, h2⟩ := ih (updateStep params st k)
    rw [List.foldl_cons, h1, h2]
    cases hv : params.get k <;> simp [updateStep, setList, setDialect, hv]

theorem updateString_args_cases (s : SQLBuilder) (params : ParamMap) :
    (s.updateString params).2.args.toList
      = if s.dialect.GetName = "postgres" then s.args.toList ++ setArgs params
        else setArgs params ++ s.args.toList := by
  have hn := updateLoop_name params (sortedParamKeys params)
    { updateFields := [], args := some [], dialect := s.dialect }
  by_cases h : s.dialect.name = "postgres" <;>
    simp [SQLBuilder.updateString, Dialect.GetName, hn, h, toList_append, updateLoop_args,
      setArgs, toList_some]

/-- C9: `updateString` builds, over the keys in lexicographic order, the SET
list with `Quote(k)=e.expr` for a Raw Expression `e` (no `Placeholder()` call)
and `Quote(k)=Placeholder()` otherwise, and the set-arguments as the
concatenation of `e.args` for a Raw Expression and the single value otherwise;
the text is `UPDATE <quoted table> SET <SET list joined by ,> <where>`,
right-trimmed of spaces, followed by `;`. -/
theorem updateString_rendering (s : SQLBuilder) (params : ParamMap) :
    ((sortedParamKeys params).foldl (updateStep params)
        { updateFields := [], args := some [], dialect := s.dialect }).updateFields
      = setList params s.dialect (sortedParamKeys params) ∧
    ((sortedParamKeys params).foldl (updateStep params)
        { updateFields := [], args := some [], dialect := s.dialect }).args.toList
      = (sortedParamKeys params).flatMap (fun k => setArgsOf (params.get k)) ∧
    (s.updateString params).1
      = TrimRight ("UPDATE " ++ s.dialect.Quote s.table ++ " SET "
          ++ Join (setList params s.dialect (sortedParamKeys params)) "," ++ " "
          ++ s.«where») " " ++ ";" ∧
    (s.updateString params).2.dialect = setDialect params s.dialect (sortedParamKeys params) ∧
    ((builderWhereId postgresDialect).updateString paramsRaw).1
      = "UPDATE \"users\" SET \"cnt\"=cnt + ?,\"name\"=$1 WHERE (id = ?);" ∧
    ((builderWhereId genericDialect).updateString paramsRaw).2.args.toList
      = [Value.int 1, Value.str "Bob", Value.int 5] := by
  obtain ⟨h1, h2⟩ := updateLoop_fields params (sortedParamKeys params)
    { updateFields := [], args := some [], dialect := s.dialect }
  refine ⟨by simpa using h1, ?_, ?_, ?_, by decide, by decide⟩
  · rw [updateLoop_args]
    simp [toList_some]
  · rw [updateString_text, h1]
    simp
  · simp only [SQLBuilder.updateString]
    split <;> simpa using h2

/-! ## C10: `deleteString` -/

theorem rdropWhile_concat_two (p : Char → Bool) (l : List Char) (c x : Char)
    (hc : p c = false) (hx : p x = true) : (l ++ [c] ++ [x]).rdropWhile p = l ++ [c] := by
  rw [List.rdropWhile_concat_pos p _ x hx, List.rdropWhile_concat_neg p _ c (by simp [hc])]

/-- C10 (as amended): `deleteString` returns `DELETE FROM <quoted table> <where>`
with trailing spaces removed and `;` appended and leaves the argument slice
untouched; with no predicate the text is `DELETE FROM <quoted table>;` when the
quoted table is non-empty and does not end in a space.  Table `orders` after
`Where("status = ?", "cancelled")` gives `DELETE FROM "orders" WHERE (status = ?);`
with arguments `["cancelled"]`. -/
theorem deleteString_spec (s : SQLBuilder) :
    s.deleteString.1
      = TrimRight ("DELETE FROM " ++ s.dialect.Quote s.table ++ " " ++ s.«where») " " ++ ";" ∧
    s.deleteString.2.args = s.args ∧
    (s.«where» = "" → s.dialect.Quote s.table ≠ "" →
      (s.dialect.Quote s.table).data.getLast? ≠ some ' ' →
      s.deleteString.1 = "DELETE FROM " ++ s.dialect.Quote s.table ++ ";") ∧
    builderDeleteExample.deleteString.1 = "DELETE FROM \"orders\" WHERE (status = ?);" ∧
    builderDeleteExample.deleteString.2.args.toList = [Value.str "cancelled"] := by
  refine ⟨rfl, rfl, ?_, by decide, by decide⟩
  intro hw hne hlast
  obtain ⟨pre, c, hT⟩ : ∃ pre c, (s.dialect.Quote s.table).data = pre ++ [c] := by
    rcases List.eq_nil_or_concat (s.dialect.Quote s.table).data with h | ⟨pre, c, h⟩
    · exact absurd (String.ext h) hne
    · exact ⟨pre, c, by simpa using h⟩
  have hc : c ≠ ' ' := by
    rw [hT] at hlast
    simpa using hlast
  have hsp : (" " : String).data = [' '] := rfl
  have hemp : ("" : String).data = [] := rfl
  apply String.ext
  simp only [SQLBuilder.deleteString, hw, TrimRight, String.data_append, hT, hsp, hemp,
    List.append_nil]
  rw [← List.append_assoc _ pre [c], rdropWhile_concat_two _ _ c ' ' (by simp [hc]) (by simp)]

/-- Witness for C10: a fresh builder for `orders` on the generic dialect has no
predicate and a quoted table ending in a double quote. -/
theorem deleteString_spec_witness :
    (newBuilder genericDialect "orders").deleteString.1 = "DELETE FROM \"orders\";" :=
  ((deleteString_spec (newBuilder genericDialect "orders")).2.2.1 (by decide) (by decide)
    (by decide)).trans (by decide)

/-- Counterexample to C10 as stated: on a dialect that leaves identifiers as
they are, a builder with empty table name and no predicate has a quoted table
that does not end in a space, yet `deleteString` returns `DELETE FROM;` and not
`DELETE FROM ` followed by the quoted table and `;`. -/
theorem deleteString_spec_counterexample :
    (newBuilder plainDialect "").«where» = "" ∧
    ((newBuilder plainDialect "").dialect.Quote (newBuilder plainDialect "").table).data.getLast?
      ≠ some ' ' ∧
    (newBuilder plainDialect "").deleteString.1 = "DELETE FROM;" ∧
    (newBuilder plainDialect "").deleteString.1
      ≠ "DELETE FROM "
        ++ (newBuilder plainDialect "").dialect.Quote (newBuilder plainDialect "").table
        ++ ";" := by
  decide

/-! ## C7: the terminator -/

theorem noSemi_append (a b : String) : noSemi (a ++ b) ↔ noSemi a ∧ noSemi b := by
  simp [noSemi, String.data_append, not_or]

theorem noSemi_literals :
    noSemi "" ∧ noSemi " " ∧ noSemi "," ∧ noSemi "=" ∧ noSemi ")" ∧ noSemi "*" ∧
    noSemi "SELECT " ∧ noSemi " FROM " ∧ noSemi " force index(" ∧
    noSemi "LIMIT " ∧ noSemi "OFFSET " ∧ noSemi "ORDER BY " ∧
    noSemi "SELECT count(*) FROM " ∧ noSemi "UPDATE " ∧ noSemi " SET " ∧
    noSemi "DELETE FROM " := by
  decide

theorem noSemi_joinTail (l : List String) (sep : String) (hl : ∀ x ∈ l, noSemi x)
    (hsep : noSemi sep) : noSemi (joinTail l sep) := by
  induction l with
  | nil => simp [joinTail, noSemi_literals]
  | cons a rest ih =>
    simp only [joinTail, noSemi_append]
    exact ⟨⟨hsep, hl a (List.mem_cons_self _ _)⟩,
      ih (fun x hx => hl x (List.mem_cons_of_mem _ hx))⟩

theorem noSemi_Join (l : List String) (sep : String) (hl : ∀ x ∈ l, noSemi x)
    (hsep : noSemi sep) : noSemi (Join l sep) := by
  cases l with
  | nil => simp [Join, noSemi_literals]
  | cons a rest =>
    rw [Join_cons, noSemi_append]
    exact ⟨hl a (List.mem_cons_self _ _),
      noSemi_joinTail rest sep (fun x hx => hl x (List.mem_cons_of_mem _ hx)) hsep⟩

theorem noSemi_setList (params : ParamMap) (keys : List String) (d : Dialect)
    (hkeys : ∀ k ∈ keys, noSemi (d.Quote k)) (hph : ∀ n, noSemi (d.next n).1)
    (hraw : ∀ k ∈ keys, rawNoSemi (params.get k) = true) :
    ∀ x ∈ setList params d keys, noSemi x := by
  induction keys generalizing d with
  | nil => simp [setList]
  | cons k ks ih =>
    have hk := hkeys k (List.mem_cons_self _ _)
    have hr := hraw k (List.mem_cons_self _ _)
    have ih1 := ih d (fun j hj => hkeys j (List.mem_cons_of_mem _ hj)) hph
      (fun j hj => hraw j (List.mem_cons_of_mem _ hj))
    have ih2 := ih d.Placeholder.2 (fun j hj => hkeys j (List.mem_cons_of_mem _ hj)) hph
      (fun j hj => hraw j (List.mem_cons_of_mem _ hj))
    have hp : noSemi d.Placeholder.1 := hph d.counter
    intro x hx
    cases hv : params.get k with
    | raw e eargs =>
      rw [hv] at hr
      simp only [rawNoSemi, decide_eq_true_eq] at hr
      simp only [setList, hv, List.mem_cons] at hx
      rcases hx with rfl | hx
      · simp [noSemi_append, noSemi_literals, hk, hr]
      · exact ih1 x hx
    | null =>
      simp only [setList, hv, List.mem_cons] at hx
      rcases hx with rfl | hx
      · simp [noSemi_append, noSemi_literals, hk, hp]
      · exact ih2 x hx
    | int n =>
      simp only [setList, hv, List.mem_cons] at hx
      rcases hx with rfl | hx
      · simp [noSemi_append, noSemi_literals, hk, hp]
      · exact ih2 x hx
    | str t =>
      simp only [setList, hv, List.mem_cons] at hx
      rcases hx with rfl | hx
      · simp [noSemi_append, noSemi_literals, hk, hp]
      · exact ih2 x hx

theorem single_of_mem (text q : String)
    (h : ∃ pre c, text.data = pre ++ [c, ';'] ∧ c ≠ ' ' ∧ c ∈ q.data) (hq : noSemi q) :
    endsWithSingleSemicolon text := by
  obtain ⟨pre, c, h1, -, h3⟩ := h
  refine ⟨pre, c, h1, ?_⟩
  rintro rfl
  exact hq h3

theorem ends_of_mem (text q : String)
    (h : ∃ pre c, text.data = pre ++ [c, ';'] ∧ c ≠ ' ' ∧ c ∈ q.data) :
    endsWithSemicolon text := by
  obtain ⟨pre, c, h1, -, -⟩ := h
  exact ⟨pre ++ [c], by simp [h1]⟩

/-- C7 (as amended): the text returned by every terminal operation ends with
`;`.  The text of `insertString` never ends with `;;`.  The text of
`queryString`, `countString`, `deleteString` and `updateString` does not end
with `;;` provided no `;` occurs in the strings rendered into it: hint, fields,
quoted table, force index, where, order, limit, offset, and for `updateString`
the quoted keys, the placeholder tokens and the Raw Expression texts. -/
theorem single_terminator (s : SQLBuilder) (params : ParamMap) :
    (endsWithSemicolon s.queryString.1 ∧ endsWithSemicolon s.countString.1 ∧
      endsWithSemicolon (s.insertString params).1 ∧
      endsWithSemicolon (s.updateString params).1 ∧ endsWithSemicolon s.deleteString.1) ∧
    endsWithSingleSemicolon (s.insertString params).1 ∧
    (noSemi s.hint → noSemi s.fields → noSemi (s.dialect.Quote s.table) →
      noSemi s.forceIndex → noSemi s.«where» → noSemi s.order → noSemi s.limit →
      noSemi s.offset → endsWithSingleSemicolon s.queryString.1) ∧
    (noSemi s.hint → noSemi (s.dialect.Quote s.table) → noSemi s.«where» →
      endsWithSingleSemicolon s.countString.1) ∧
    (noSemi (s.dialect.Quote s.table) → noSemi s.«where» →
      endsWithSingleSemicolon s.deleteString.1) ∧
    (noSemi (s.dialect.Quote s.table) → noSemi s.«where» →
      (∀ k ∈ sortedParamKeys params, noSemi (s.dialect.Quote k)) →
      (∀ n, noSemi (s.dialect.next n).1) →
      (∀ k ∈ sortedParamKeys params, rawNoSemi (params.get k) = true) →
      endsWithSingleSemicolon (s.updateString params).1) := by
  have hins : endsWithSingleSemicolon (s.insertString params).1 := by
    obtain ⟨pre, h1⟩ := insertString_ends s params
    exact ⟨pre, ')', h1, by decide⟩
  refine ⟨⟨ends_of_mem _ _ (queryString_ends s), ends_of_mem _ _ (countString_ends s), ?_,
    ends_of_mem _ _ (updateString_ends s params), ends_of_mem _ _ (deleteString_ends s)⟩,
    hins, ?_, ?_, ?_, ?_⟩
  · obtain ⟨pre, h1⟩ := insertString_ends s params
    exact ⟨pre ++ [')'], by simp [h1]⟩
  · intro hhint hfields htable hfi hwhere horder hlimit hoffset
    apply single_of_mem _ _ (queryString_ends s)
    by_cases g0 : s.fields = "" <;> by_cases g1 : s.forceIndex = "" <;>
      by_cases g2 : s.order = "" <;> by_cases g3 : s.limit = "" <;>
      by_cases g4 : s.offset = "" <;>
      simp [g0, g1, g2, g3, g4, noSemi_append, noSemi_literals, SQLBuilder.queryTable,
        SQLBuilder.orderFormat, SQLBuilder.limitFormat, SQLBuilder.offsetFormat, hhint,
        hfields, htable, hfi, hwhere, horder, hlimit, hoffset]
  · intro hhint htable hwhere
    apply single_of_mem _ _ (countString_ends s)
    simp [noSemi_append, noSemi_literals, hhint, htable, hwhere]
  · intro htable hwhere
    apply single_of_mem _ _ (deleteString_ends s)
    simp [noSemi_append, noSemi_literals, htable, hwhere]
  · intro htable hwhere hkeys hph hraw
    apply single_of_mem _ _ (updateString_ends s params)
    have hf := (updateLoop_fields params (sortedParamKeys params)
      { updateFields := [], args := some [], dialect := s.dialect }).1
    simp only [List.nil_append] at hf
    rw [hf]
    have hj := noSemi_Join _ "," (noSemi_setList params (sortedParamKeys params) s.dialect
      hkeys hph hraw) noSemi_literals.2.2.1
    simp [noSemi_append, noSemi_literals, htable, hwhere, hj]

/-- Witness for C7: the select example and an update with a Raw Expression on
the generic dialect contain no `;` in their parts. -/
theorem single_terminator_witness :
    endsWithSingleSemicolon builderSelectExample.queryString.1 ∧
    endsWithSingleSemicolon builderSelectExample.countString.1 ∧
    endsWithSingleSemicolon builderSelectExample.deleteString.1 ∧
    endsWithSingleSemicolon (builderSelectExample.updateString paramsRaw).1 :=
  have h := single_terminator builderSelectExample paramsRaw
  ⟨h.2.2.1 (by decide) (by decide) (by decide) (by decide) (by decide) (by decide)
      (by decide) (by decide),
    h.2.2.2.1 (by decide) (by decide) (by decide),
    h.2.2.2.2.1 (by decide) (by decide),
    h.2.2.2.2.2 (by decide) (by decide) (by decide) (fun _ => show noSemi "?" from by decide) (by decide)⟩

/-- Counterexample to C7 as stated: with the order string `name;` the text of
`queryString` ends with `;;`. -/
theorem single_terminator_counterexample :
    builderOrderSemi.queryString.1 = "SELECT * FROM \"users\"  ORDER BY name;;" ∧
    ¬ endsWithSingleSemicolon builderOrderSemi.queryString.1 := by
  refine ⟨by decide, ?_⟩
  rintro ⟨pre, c, h1, h2⟩
  have h3 : builderOrderSemi.queryString.1.data
      = ("SELECT * FROM \"users\"  ORDER BY name" : String).data ++ [';', ';'] := by decide
  rw [h3] at h1
  have h4 := congrArg List.reverse h1
  simp only [List.reverse_append, List.reverse_cons, List.reverse_nil, List.nil_append,
    List.singleton_append, List.cons_append, List.cons.injEq] at h4
  exact h2 h4.2.1.symm

/-! ## C11: `countString` -/

/-- C11: `countString` returns hint, `SELECT count(*) FROM `, the quoted table,
a space and the where text, with trailing spaces removed and `;` appended; the
text does not depend on the fields, force-index, order, limit and offset
settings, and the argument slice afterwards is the one `queryString` leaves
(the WHERE-accumulated one). -/
theorem countString_spec (s : SQLBuilder) :
    s.countString.1
      = TrimRight (s.hint ++ "SELECT count(*) FROM " ++ s.dialect.Quote s.table ++ " "
          ++ s.«where») " " ++ ";" ∧
    (∀ f fi o l off : String,
      ({ s with fields := f, forceIndex := fi, order := o, limit := l,
                offset := off } : SQLBuilder).countString.1 = s.countString.1) ∧
    s.countString.2.args = s.queryString.2.args ∧
    s.countString.2.args = s.args := by
  refine ⟨rfl, fun _ _ _ _ _ => rfl, ?_, rfl⟩
  rw [queryString_args]
  rfl

/-! ## C12: rendering twice -/

theorem queryString_twice (s : SQLBuilder) : s.queryString.2.queryString = s.queryString := by
  by_cases hf : s.fields = "" <;>
    simp [SQLBuilder.queryString, hf, SQLBuilder.queryTable, SQLBuilder.orderFormat,
      SQLBuilder.limitFormat, SQLBuilder.offsetFormat]

/-- C12: calling `queryString`, `countString` or `deleteString` a second time
on the builder left by the first call returns the same text and leaves the
same argument slice (these operations call only `Quote`, never
`Placeholder()`, so this holds for every dialect, stateless ones included). -/
theorem rendering_idempotent (s : SQLBuilder) :
    (s.queryString.2.queryString.1 = s.queryString.1 ∧
      s.queryString.2.queryString.2.args = s.queryString.2.args ∧
      s.queryString.2.args = s.args) ∧
    (s.countString.2.countString.1 = s.countString.1 ∧
      s.countString.2.countString.2.args = s.countString.2.args ∧
      s.countString.2.args = s.args) ∧
    (s.deleteString.2.deleteString.1 = s.deleteString.1 ∧
      s.deleteString.2.deleteString.2.args = s.deleteString.2.args ∧
      s.deleteString.2.args = s.args) := by
  refine ⟨⟨?_, ?_, queryString_args s⟩, ⟨rfl, rfl, rfl⟩, ⟨rfl, rfl, rfl⟩⟩
  · rw [queryString_twice]
  · rw [queryString_twice]

/-! ## C17: frame of the read-only operations -/

/-- C17: `countString` and `deleteString` leave the builder exactly as it was;
`queryString` changes at most `fields`, which becomes `*` when it was empty and
stays as it is otherwise, and leaves table, force index, where, order, limit,
offset, hint, dialect and the argument slice unchanged. -/
theorem readonly_frame (s : SQLBuilder) :
    s.countString.2 = s ∧ s.deleteString.2 = s ∧
    s.queryString.2 = { s with fields := if s.fields = "" then "*" else s.fields } ∧
    (s.fields = "" → s.queryString.2.fields = "*") ∧
    (s.fields ≠ "" → s.queryString.2 = s) ∧
    s.queryString.2.table = s.table ∧ s.queryString.2.forceIndex = s.forceIndex ∧
    s.queryString.2.«where» = s.«where» ∧ s.queryString.2.order = s.order ∧
    s.queryString.2.limit = s.limit ∧ s.queryString.2.offset = s.offset ∧
    s.queryString.2.hint = s.hint ∧ s.queryString.2.args = s.args ∧
    s.queryString.2.dialect = s.dialect := by
  by_cases hf : s.fields = "" <;> simp [SQLBuilder.queryString, SQLBuilder.countString,
    SQLBuilder.deleteString, hf]

/-- Witness for C17: a fresh builder has no field list, one with the field
list `id` keeps it. -/
theorem readonly_frame_witness :
    (newBuilder genericDialect "users").queryString.2.fields = "*" ∧
    ({ newBuilder genericDialect "users" with fields := "id" } : SQLBuilder).queryString.2
      = { newBuilder genericDialect "users" with fields := "id" } :=
  ⟨(readonly_frame (newBuilder genericDialect "users")).2.2.2.1 (by decide),
    (readonly_frame { newBuilder genericDialect "users" with fields := "id" }).2.2.2.2.1
      (by decide)⟩

/-! ## C13: no precondition is checked -/

theorem sortedParamKeys_nil : sortedParamKeys nilParams = [] := rfl

/-- C13 (as amended): the terminal operations check no precondition and have no
error result; they return a statement text also for a nil parameter map and
for an empty table name.  With a nil map `insertString` returns
`INSERT INTO <quoted table> () VALUES();` and leaves the builder as it was,
and `updateString` returns `UPDATE <quoted table> SET  <where>` right-trimmed
and followed by `;` and leaves the argument sequence as it was; with an empty
table name every operation renders `Quote("")` where the table goes. -/
theorem no_precondition_check (s : SQLBuilder) (params : ParamMap) :
    (s.insertString nilParams).1 = "INSERT INTO " ++ s.dialect.Quote s.table ++ " () VALUES();" ∧
    (s.insertString nilParams).2 = s ∧
    (s.updateString nilParams).1
      = TrimRight ("UPDATE " ++ s.dialect.Quote s.table ++ " SET " ++ " " ++ s.«where») " "
        ++ ";" ∧
    (s.updateString nilParams).2.args.toList = s.args.toList ∧
    ({ s with table := "" } : SQLBuilder).deleteString.1
      = TrimRight ("DELETE FROM " ++ s.dialect.Quote "" ++ " " ++ s.«where») " " ++ ";" ∧
    ({ s with table := "" } : SQLBuilder).countString.1
      = TrimRight (s.hint ++ "SELECT count(*) FROM " ++ s.dialect.Quote "" ++ " "
          ++ s.«where») " " ++ ";" ∧
    ({ s with table := "" } : SQLBuilder).queryString.1
      = TrimRight (s.hint ++ "SELECT " ++ (if s.fields = "" then "*" else s.fields) ++ " FROM "
          ++ (s.dialect.Quote ""
              ++ (if s.forceIndex = "" then "" else " force index(" ++ s.forceIndex ++ ")"))
          ++ " " ++ s.«where» ++ " " ++ s.orderFormat ++ " " ++ s.limitFormat ++ " "
          ++ s.offsetFormat) " " ++ ";" ∧
    (({ s with table := "" } : SQLBuilder).insertString params).1
      = "INSERT INTO " ++ s.dialect.Quote "" ++ " ("
        ++ Join ((sortedParamKeys params).map s.dialect.Quote) "," ++ ") VALUES("
        ++ Join (placeholders s.dialect (sortedParamKeys params).length) "," ++ ");" ∧
    (({ s with table := "" } : SQLBuilder).updateString params).1
      = TrimRight ("UPDATE " ++ s.dialect.Quote "" ++ " SET "
          ++ Join (setList params s.dialect (sortedParamKeys params)) "," ++ " "
          ++ s.«where») " " ++ ";" := by
  refine ⟨?_, ?_, ?_, ?_, rfl, rfl, ?_, ?_, ?_⟩
  · simp only [SQLBuilder.insertString, sortedParamKeys_nil, List.foldl_nil, Join,
      String.append_assoc]
    rfl
  · simp [SQLBuilder.insertString, sortedParamKeys_nil]
  · rw [updateString_text]
    simp [sortedParamKeys_nil, Join]
  · rw [updateString_args_cases]
    simp [setArgs, sortedParamKeys_nil]
  · rw [queryString_text]
    by_cases h1 : s.forceIndex = "" <;>
      simp [h1, SQLBuilder.queryTable, SQLBuilder.orderFormat, SQLBuilder.limitFormat,
        SQLBuilder.offsetFormat]
  · exact (insertString_spec_aux _ params).1
  · rw [updateString_text]
    have hf := (updateLoop_fields params (sortedParamKeys params)
      { updateFields := [], args := some [], dialect := s.dialect }).1
    simp only [List.nil_append] at hf
    rw [hf]

/-- Counterexample to C13 as stated: `insertString` with a nil map returns
`INSERT INTO "users" () VALUES();`, `updateString` with a nil map returns
`UPDATE "users" SET;`, and `deleteString` with an empty table name returns
`DELETE FROM "";` on the generic dialect. -/
theorem no_precondition_check_counterexample :
    ((newBuilder genericDialect "users").insertString nilParams).1
      = "INSERT INTO \"users\" () VALUES();" ∧
    ((newBuilder genericDialect "users").updateString nilParams).1
      = "UPDATE \"users\" SET;" ∧
    (newBuilder genericDialect "").deleteString.1 = "DELETE FROM \"\";" := by
  decide

/-! ## C15: reuse of a builder by `insertString` -/

theorem insertLoop_dialect_of_stateless (params : ParamMap) (keys : List String)
    (st : InsertLoop) (h : st.s.dialect.Placeholder.2 = st.s.dialect) :
    (keys.foldl (insertStep params) st).s.dialect = st.s.dialect := by
  induction keys generalizing st with
  | nil => rfl
  | cons k ks ih =>
    have hd : (insertStep params st k).s.dialect = st.s.dialect := by
      simp [insertStep, h]
    rw [List.foldl_cons, ih (insertStep params st k) (by rw [hd]; exact h), hd]

theorem sortedParamKeys_length (params : ParamMap) :
    (sortedParamKeys params).length = params.entries.length := by
  rw [(sortedParamKeys_perm params).length_eq, List.length_map]

/-- C15: calling `insertString` twice on the same builder with the same map
leaves the previous arguments followed by the map's values twice, of length
`|A| + 2n`; for a non-empty map the argument sequence after the second call
differs from the one after the first; on a dialect whose `Placeholder()` leaves
its state as it is (a stateless dialect) both calls return the same text. -/
theorem insert_reuse (s : SQLBuilder) (params : ParamMap) :
    (s.insertString params).2.args.toList
      = s.args.toList ++ (sortedParamKeys params).map params.get ∧
    ((s.insertString params).2.insertString params).2.args.toList
      = s.args.toList ++ (sortedParamKeys params).map params.get
        ++ (sortedParamKeys params).map params.get ∧
    ((s.insertString params).2.insertString params).2.args.toList.length
      = s.args.toList.length + 2 * params.entries.length ∧
    (params.entries ≠ [] →
      ((s.insertString params).2.insertString params).2.args.toList
        ≠ (s.insertString params).2.args.toList) ∧
    (s.dialect.Placeholder.2 = s.dialect →
      ((s.insertString params).2.insertString params).1 = (s.insertString params).1) := by
  have h1 := (insertString_spec_aux s params).2
  have h2 := (insertString_spec_aux (s.insertString params).2 params).2
  rw [h1] at h2
  have hlen := sortedParamKeys_length params
  refine ⟨h1, h2, ?_, ?_, ?_⟩
  · rw [h2]
    simp only [List.length_append, List.length_map, hlen]
    omega
  · intro hne heq
    have := congrArg List.length heq
    rw [h1, h2] at this
    simp only [List.length_append, List.length_map, hlen] at this
    have hpos : 0 < params.entries.length := List.length_pos.2 hne
    omega
  · intro hst
    obtain ⟨-, -, -, h4, -⟩ := insertLoop_spec params (sortedParamKeys params)
      { cols := [], vals := [], s := s }
    have hd := insertLoop_dialect_of_stateless params (sortedParamKeys params)
      { cols := [], vals := [], s := s } hst
    have ht : (s.insertString params).2.table = s.table := h4
    have hd2 : (s.insertString params).2.dialect = s.dialect := hd
    rw [(insertString_spec_aux (s.insertString params).2 params).1,
      (insertString_spec_aux s params).1, ht, hd2]

/-- Witness for C15: the map `{"name": "Bob", "age": 30}` inserted twice after
`Where("id = ?", 5)` on the generic (stateless) dialect. -/
theorem insert_reuse_witness :
    paramsNameAge.entries ≠ [] ∧
    (builderWhereId genericDialect).dialect.Placeholder.2
      = (builderWhereId genericDialect).dialect ∧
    (((builderWhereId genericDialect).insertString paramsNameAge).2.insertString
        paramsNameAge).2.args.toList
      ≠ ((builderWhereId genericDialect).insertString paramsNameAge).2.args.toList ∧
    (((builderWhereId genericDialect).insertString paramsNameAge).2.insertString
        paramsNameAge).1
      = ((builderWhereId genericDialect).insertString paramsNameAge).1 ∧
    (((builderWhereId genericDialect).insertString paramsNameAge).2.insertString
        paramsNameAge).2.args.toList
      = [Value.int 5, Value.int 30, Value.str "Bob", Value.int 30, Value.str "Bob"] :=
  have h := insert_reuse (builderWhereId genericDialect) paramsNameAge
  ⟨by decide, rfl, h.2.2.2.1 (by decide), h.2.2.2.2 rfl, by decide⟩

/-! ## C16: the two dialect branches of `updateString` -/

theorem setList_withName (params : ParamMap) (keys : List String) (d : Dialect) (n : String) :
    setList params { d with name := n } keys = setList params d keys := by
  induction keys generalizing d with
  | nil => rfl
  | cons k ks ih =>
    have h := ih d.Placeholder.2
    cases hv : params.get k <;>
      simp_all [setList, Dialect.Quote, Dialect.Placeholder]

/-- C16: for a builder on a dialect named `postgres` and the same builder on a
dialect that differs in name only, `updateString` renders the same text; the
argument sequence is `W ++ S` under `postgres` and `S ++ W` otherwise (`W` the
pre-existing arguments, `S` the set-arguments), so the two are equal whenever
`W` or `S` is empty, and both have length `|W| + |S|`. -/
theorem update_branches (s : SQLBuilder) (params : ParamMap) (other : String)
    (hpg : s.dialect.GetName = "postgres") (hother : other ≠ "postgres") :
    ((withDialectName s other).updateString params).1 = (s.updateString params).1 ∧
    (s.updateString params).2.args.toList = s.args.toList ++ setArgs params ∧
    ((withDialectName s other).updateString params).2.args.toList
      = setArgs params ++ s.args.toList ∧
    (s.args.toList = [] ∨ setArgs params = [] →
      ((withDialectName s other).updateString params).2.args.toList
        = (s.updateString params).2.args.toList) ∧
    (s.updateString params).2.args.toList.length
      = s.args.toList.length + (setArgs params).length ∧
    ((withDialectName s other).updateString params).2.args.toList.length
      = s.args.toList.length + (setArgs params).length := by
  have h1 : (s.updateString params).2.args.toList = s.args.toList ++ setArgs params := by
    rw [updateString_args_cases, if_pos hpg]
  have h2 : ((withDialectName s other).updateString params).2.args.toList
      = setArgs params ++ s.args.toList := by
    rw [updateString_args_cases, if_neg (by simpa [withDialectName, Dialect.GetName] using hother)]
    rfl
  refine ⟨?_, h1, h2, ?_, ?_, ?_⟩
  · rw [updateString_text, updateString_text]
    have hf1 := (updateLoop_fields params (sortedParamKeys params)
      { updateFields := [], args := some [], dialect := s.dialect }).1
    have hf2 := (updateLoop_fields params (sortedParamKeys params)
      { updateFields := [], args := some [], dialect := (withDialectName s other).dialect }).1
    rw [hf1, hf2]
    simp [withDialectName, setList_withName, Dialect.Quote]
  · rintro (hW | hS)
    · rw [h1, h2, hW]; simp
    · rw [h1, h2, hS]; simp
  · rw [h1, List.length_append]
  · rw [h2, List.length_append]; omega

/-- Witness for C16: the postgres builder after `Where("id = ?", 5)` and its
copy on a dialect named `mysql`, updated with `{"name": "Bob"}`. -/
theorem update_branches_witness :
    (builderWhereId postgresDialect).dialect.GetName = "postgres" ∧
    ((withDialectName (builderWhereId postgresDialect) "mysql").updateString paramsNameBob).1
      = ((builderWhereId postgresDialect).updateString paramsNameBob).1 ∧
    ((builderWhereId postgresDialect).updateString paramsNameBob).2.args.toList
      = [Value.int 5, Value.str "Bob"] ∧
    ((withDialectName (builderWhereId postgresDialect) "mysql").updateString
        paramsNameBob).2.args.toList
      = [Value.str "Bob", Value.int 5] :=
  have h := update_branches (builderWhereId postgresDialect) paramsNameBob "mysql" (by decide)
    (by decide)
  ⟨by decide, h.1, h.2.1.trans (by decide), h.2.2.1.trans (by decide)⟩

/-! ## C14: whitespace inside the select text -/

theorem hasDoubleSpace_cons_cons (a b : Char) (rest : List Char) :
    hasDoubleSpace (a :: b :: rest)
      = ((a == ' ' && b == ' ') || hasDoubleSpace (b :: rest)) := by
  simp [hasDoubleSpace]

theorem hasDoubleSpace_append (a b : List Char) (ha : hasDoubleSpace a = false)
    (hb : hasDoubleSpace b = false) (hab : ¬ (a.getLast? = some ' ' ∧ b.head? = some ' ')) :
    hasDoubleSpace (a ++ b) = false := by
  induction a with
  | nil => simpa using hb
  | cons x xs ih =>
    cases xs with
    | nil =>
      cases b with
      | nil => simp [hasDoubleSpace]
      | cons y ys =>
        simp only [List.singleton_append, hasDoubleSpace_cons_cons, hb, Bool.or_false]
        simp only [List.getLast?_singleton, List.head?_cons, Option.some.injEq] at hab
        simpa using hab
    | cons y ys =>
      rw [hasDoubleSpace_cons_cons] at ha
      simp only [Bool.or_eq_false_iff] at ha
      have h2 := ih ha.2 (by simpa [List.getLast?_cons_cons] using hab)
      simp only [List.cons_append, hasDoubleSpace_cons_cons, Bool.or_eq_false_iff]
      exact ⟨ha.1, by simpa using h2⟩

theorem solid_space (a b : List Char) (ha : solid a) (hb : solid b) :
    solid (a ++ ' ' :: b) := by
  obtain ⟨a1, a2, a3, a4⟩ := ha
  obtain ⟨b1, b2, b3, b4⟩ := hb
  have hsb : hasDoubleSpace (' ' :: b) = false :=
    hasDoubleSpace_append [' '] b (by decide) b1 (fun h => b3 h.2)
  refine ⟨hasDoubleSpace_append a _ a1 hsb (fun h => a4 h.1), by simp, ?_, ?_⟩
  · rw [List.head?_append_of_ne_nil _ a2]; exact a3
  · rw [List.getLast?_append_of_ne_nil _ (by simp)]
    cases b with
    | nil => exact absurd rfl b2
    | cons y ys => simpa using b4

theorem solid_mid (a m b : List Char) (ha : solid a) (hm : hasDoubleSpace m = false)
    (hb : solid b) : solid (a ++ (m ++ b)) := by
  obtain ⟨a1, a2, a3, a4⟩ := ha
  obtain ⟨b1, b2, b3, b4⟩ := hb
  have hmb : hasDoubleSpace (m ++ b) = false :=
    hasDoubleSpace_append m b hm b1 (fun h => b3 h.2)
  refine ⟨hasDoubleSpace_append a _ a1 hmb (fun h => a4 h.1), by simp [a2], ?_, ?_⟩
  · rw [List.head?_append_of_ne_nil _ a2]; exact a3
  · rw [List.getLast?_append_of_ne_nil _ (by simp [b2]), List.getLast?_append_of_ne_nil _ b2]
    exact b4

theorem solid_of_tight (x : String) (h : tight x) (hne : x ≠ "") : solid x.data :=
  ⟨h.1, fun hd => hne (String.ext hd), h.2.1, h.2.2⟩

theorem rdropWhile_append_all (p : Char → Bool) (l sp : List Char)
    (h : ∀ c ∈ sp, p c = true) : (l ++ sp).rdropWhile p = l.rdropWhile p := by
  induction sp using List.reverseRecOn with
  | nil => simp
  | append_singleton sp x ih =>
    rw [← List.append_assoc, List.rdropWhile_concat_pos p _ x (h x (by simp))]
    exact ih (fun c hc => h c (by simp [hc]))

theorem trim_solid (body : String) (pre S sp : List Char) (hpre : hasDoubleSpace pre = false)
    (hS : solid S) (hsp : ∀ c ∈ sp, c = ' ') (hb : body.data = pre ++ S ++ sp) :
    hasDoubleSpace (TrimRight body " " ++ ";").data = false := by
  obtain ⟨s1, s2, s3, s4⟩ := hS
  have hsp2 : (" " : String).data = [' '] := rfl
  have hsc : (";" : String).data = [';'] := rfl
  have hlast : (pre ++ S).getLast? ≠ some ' ' := by
    rw [List.getLast?_append_of_ne_nil _ s2]; exact s4
  have htrim : (TrimRight body " ").data = pre ++ S := by
    simp only [TrimRight, hb, hsp2]
    rw [rdropWhile_append_all _ _ _ (by intro c hc; simp [hsp c hc]),
      List.rdropWhile_eq_self_iff]
    intro hl hp
    apply hlast
    rw [List.getLast?_eq_getLast _ hl]
    simpa using hp
  rw [String.data_append, htrim, hsc]
  apply hasDoubleSpace_append _ _ (hasDoubleSpace_append _ _ hpre s1 (fun h => s3 h.2))
    (by decide)
  intro h
  exact hlast h.1

theorem clauses_noDouble (hint F T W O L Off : String)
    (hhint : hasDoubleSpace hint.data = false) (hF : solid F.data) (hT : solid T.data)
    (hW : tight W) (hO : tight O) (hL : tight L) (hOff : tight Off)
    (hp1 : O ≠ "" → W ≠ "") (hp2 : L ≠ "" → O ≠ "") (hp3 : Off ≠ "" → L ≠ "") :
    hasDoubleSpace (TrimRight (hint ++ "SELECT " ++ F ++ " FROM " ++ T ++ " " ++ W ++ " "
        ++ (if O ≠ "" then "ORDER BY " ++ O else "") ++ " "
        ++ (if L ≠ "" then "LIMIT " ++ L else "") ++ " "
        ++ (if Off ≠ "" then "OFFSET " ++ Off else "")) " " ++ ";").data = false := by
  have hsel : solid ("SELECT" : String).data := by unfold solid; decide
  have hfrom : solid ("FROM" : String).data := by unfold solid; decide
  have hob : solid ("ORDER BY" : String).data := by unfold solid; decide
  have hlim : solid ("LIMIT" : String).data := by unfold solid; decide
  have hoff : solid ("OFFSET" : String).data := by unfold solid; decide
  have hH := solid_space _ _ hsel (solid_space _ _ hF (solid_space _ _ hfrom hT))
  by_cases gW : W = ""
  · have gO : O = "" := by_contra fun h => hp1 h gW
    have gL : L = "" := by_contra fun h => hp2 h gO
    have gOff : Off = "" := by_contra fun h => hp3 h gL
    apply trim_solid _ hint.data _ [' ', ' ', ' ', ' '] hhint hH (by simp)
    simp [String.data_append, gW, gO, gL, gOff]
  · have sW := solid_of_tight W hW gW
    by_cases gO : O = ""
    · have gL : L = "" := by_contra fun h => hp2 h gO
      have gOff : Off = "" := by_contra fun h => hp3 h gL
      apply trim_solid _ hint.data _ [' ', ' ', ' '] hhint (solid_space _ _ hH sW) (by simp)
      simp [String.data_append, gW, gO, gL, gOff]
    · have sO := solid_space _ _ hob (solid_of_tight O hO gO)
      by_cases gL : L = ""
      · have gOff : Off = "" := by_contra fun h => hp3 h gL
        apply trim_solid _ hint.data _ [' ', ' '] hhint
          (solid_space _ _ (solid_space _ _ hH sW) sO) (by simp)
        simp [String.data_append, gW, gO, gL, gOff]
      · have sL := solid_space _ _ hlim (solid_of_tight L hL gL)
        by_cases gOff : Off = ""
        · apply trim_solid _ hint.data _ [' '] hhint
            (solid_space _ _ (solid_space _ _ (solid_space _ _ hH sW) sO) sL) (by simp)
          simp [String.data_append, gW, gO, gL, gOff]
        · have sOff := solid_space _ _ hoff (solid_of_tight Off hOff gOff)
          apply trim_solid _ hint.data _ [] hhint
            (solid_space _ _ (solid_space _ _ (solid_space _ _ (solid_space _ _ hH sW) sO) sL)
              sOff) (by simp)
          simp [String.data_append, gW, gO, gL, gOff]

/-- C14 (as amended): `queryString` removes trailing spaces only; an absent
clause is an empty segment that keeps its separating space.  For every builder
whose hint and force index contain no two consecutive spaces, whose fields,
quoted table, where, order, limit and offset contain no two consecutive spaces
and neither begin nor end with a space, whose quoted table is non-empty, and in
which order is set only if where is set, limit only if order is set and offset
only if limit is set, the returned text contains no two consecutive spaces. -/
theorem select_whitespace (s : SQLBuilder)
    (hhint : noDoubleSpace s.hint) (hfields : tight s.fields)
    (htable : tight (s.dialect.Quote s.table)) (htne : s.dialect.Quote s.table ≠ "")
    (hfi : noDoubleSpace s.forceIndex)
    (hwhere : tight s.«where») (horder : tight s.order) (hlimit : tight s.limit)
    (hoffset : tight s.offset)
    (hp1 : s.order ≠ "" → s.«where» ≠ "") (hp2 : s.limit ≠ "" → s.order ≠ "")
    (hp3 : s.offset ≠ "" → s.limit ≠ "") :
    noDoubleSpace s.queryString.1 := by
  have hF : solid (if s.fields = "" then "*" else s.fields).data := by
    by_cases hf : s.fields = ""
    · rw [if_pos hf]; unfold solid; decide
    · rw [if_neg hf]; exact solid_of_tight _ hfields hf
  have hTq := solid_of_tight _ htable htne
  have hT : solid s.queryTable.data := by
    unfold SQLBuilder.queryTable
    by_cases h1 : s.forceIndex = ""
    · simpa [h1] using hTq
    · have hfi1 : solid ("force index(" : String).data := by unfold solid; decide
      have hpar : solid (")" : String).data := by unfold solid; decide
      have := solid_space _ _ hTq (solid_mid _ _ _ hfi1 hfi hpar)
      simpa [h1, String.data_append] using this
  unfold noDoubleSpace
  rw [queryString_text]
  exact clauses_noDouble s.hint _ s.queryTable s.«where» s.order s.limit s.offset hhint hF hT
    hwhere horder hlimit hoffset hp1 hp2 hp3

/-- Witness for C14: the select example (where, order and limit set, offset
unset). -/
theorem select_whitespace_witness :
    noDoubleSpace builderSelectExample.queryString.1 :=
  select_whitespace builderSelectExample (by decide) (by decide) (by decide) (by decide)
    (by decide) (by decide) (by decide) (by decide) (by decide) (by decide) (by decide)
    (by decide)

/-- Counterexample to C14 as stated: with no predicate and order `name` every
string of the builder is free of consecutive spaces, yet the text is
`SELECT * FROM "users"  ORDER BY name;`, with two spaces before `ORDER`. -/
theorem select_whitespace_counterexample :
    noDoubleSpace builderOrderOnly.hint ∧ noDoubleSpace builderOrderOnly.fields ∧
    noDoubleSpace (builderOrderOnly.dialect.Quote builderOrderOnly.table) ∧
    noDoubleSpace builderOrderOnly.forceIndex ∧ noDoubleSpace builderOrderOnly.«where» ∧
    noDoubleSpace builderOrderOnly.order ∧ noDoubleSpace builderOrderOnly.limit ∧
    noDoubleSpace builderOrderOnly.offset ∧
    builderOrderOnly.«where» = "" ∧ builderOrderOnly.order ≠ "" ∧
    builderOrderOnly.queryString.1 = "SELECT * FROM \"users\"  ORDER BY name;" ∧
    ¬ noDoubleSpace builderOrderOnly.queryString.1 := by
  decide

end Gosql
